import Mathlib

/-!
Verification development for the RefineM taxonomic-profile engine
(src/refinem/taxonomic_profile.py).

The Python code stores its working data in (default-)dictionaries.  We embed
every dictionary as an association list `List (key × value)` in insertion
order: Python-2 dict iteration order is implementation defined, and the list
order of the embedding plays that role (all witnesses below are chosen free
of majority-vote ties so that the order never decides a result).

Machine floats appear in the source only as the classification threshold
`count >= 0.2 * fragments` and as the abundance / mean arithmetic of
`Profile.profile`.  We embed them as exact rationals: for the threshold the
IEEE-double comparison agrees with the exact comparison at every fragment
count the tool can produce (counts far below 2^50), and the spec itself
states the abundance sums hold "within floating-point tolerance", which the
rational embedding realises exactly.

Fallible dictionary reads (`KeyError`), tuple unpacking of an empty list
(`ValueError`) and the `max` of an empty collection (`ValueError`) are
embedded with `Except`/`Option` results.
-/

/-- Association-list lookup: the embedding of a Python dict read `d[k]`
(`none` plays the role of `KeyError` / a failed `in` test). -/
def alookup {α β : Type} [DecidableEq α] (k : α) : List (α × β) → Option β
  | [] => none
  | (k₁, v) :: t => if k₁ = k then some v else alookup k t

/-- Association-list write: the embedding of a Python dict write `d[k] = v`
(replaces in place, appends new keys at the end, i.e. in insertion order). -/
def aset {α β : Type} [DecidableEq α] (k : α) (v : β) : List (α × β) → List (α × β)
  | [] => [(k, v)]
  | (k₁, v₁) :: t => if k₁ = k then (k, v) :: t else (k₁, v₁) :: aset k v t

/-- Embedding of `defaultdict(float)` accumulation `d[k] += v`. -/
def aadd (k : String) (v : ℚ) (l : List (String × ℚ)) : List (String × ℚ) :=
  aset k ((alookup k l).getD 0 + v) l

/-- Embedding of `defaultdict(int)` accumulation `d[k] += v`. -/
def aaddN (k : String) (v : ℕ) (l : List (String × ℕ)) : List (String × ℕ) :=
  aset k ((alookup k l).getD 0 + v) l

/-- Quality statistics of one homology hit (`Profile.HitInfo`). -/
structure HitInfo where
  evalue : ℚ
  perc_identity : ℚ
  aln_length : ℚ
deriving DecidableEq, Repr

/-- Embedding of `defaultdict(list)` accumulation `d[k].append(h)`. -/
def aconcat (k : String) (xs : List HitInfo) (l : List (String × List HitInfo)) :
    List (String × List HitInfo) :=
  aset k ((alookup k l).getD [] ++ xs) l

/-- Per-rank hit buckets of one sequence: `dict[taxa] -> [HitInfo, ...]`. -/
abbrev Buckets := List (String × List HitInfo)

/-- Hits of one sequence: `dict[rank] -> Buckets`. -/
abbrev SeqHits := List (ℕ × Buckets)

/-- Hit table of a genome: `dict[contig_id] -> SeqHits`
(`Profile.hits`, a three-level defaultdict). -/
abbrev Hits := List (String × SeqHits)

/-- The sentinel label (`Profile.unclassified = 'unclassified'`). -/
def unclassified : String := "unclassified"

/-- The fixed classification threshold (`Profile.percent_to_classify = 0.2`);
the IEEE double `0.2` is embedded as the exact rational it stands for in the
comparison (see the header comment). -/
def percent_to_classify : ℚ := 1/5

/-- Aggregate statistics of one taxon at one rank (`Profile.TaxaInfo`);
the three quality fields are `None` for the `unclassified` sentinel. -/
structure TaxaInfo where
  evalue : Option ℚ
  perc_identity : Option ℚ
  aln_length : Option ℚ
  num_seqs : ℕ
  num_basepairs : ℕ
deriving DecidableEq, Repr

/-- The state of one `Profile` object: the number of ranks of the rank schema
(`len(self.rank_prefixes)`, 7 for the GreenGenes taxonomy, kept abstract),
the reference taxonomy `dict[ref_genome_id] -> lineage`, and the three
per-sequence tables. -/
structure Profile where
  numRanks : ℕ
  taxonomy : List (String × List String)
  seq_len : List (String × ℕ)
  fragments_from_seq : List (String × ℕ)
  hits : Hits
deriving Repr

/-- The inner loop of `Profile.add_hit`:
`for i, taxa in enumerate(tax_list): d[i][taxa].append(HitInfo(...))`,
with the running index made explicit. -/
def seqHitsAdd (h : HitInfo) : List String → ℕ → SeqHits → SeqHits
  | [], _, sh => sh
  | taxa :: rest, i, sh =>
      seqHitsAdd h rest (i + 1)
        (aset i (aconcat taxa [h] ((alookup i sh).getD [])) sh)

/-- `Profile.add_hit(seq_id, tax_list, evalue, perc_identity, aln_length)`.
Note that `d = self.hits[seq_id]` is a defaultdict read and therefore creates
the sequence entry even when `tax_list` is empty. -/
def Profile.add_hit (p : Profile) (seq_id : String) (tax_list : List String)
    (evalue perc_identity aln_length : ℚ) : Profile :=
  { p with
    hits := aset seq_id
      (seqHitsAdd ⟨evalue, perc_identity, aln_length⟩ tax_list 0
        ((alookup seq_id p.hits).getD [])) p.hits }

/-- The consecutive (child, parent) pairs of one lineage. -/
def childParentPairs : List String → List (String × String)
  | a :: b :: rest => (b, a) :: childParentPairs (b :: rest)
  | _ => []

/-- Modelled from the spec: the repository calls biolib's
`Taxonomy().taxonomic_consistency(self.taxonomy)`, which is not under src/.
Per spec section 4.1 the consistency table is built by scanning every
reference lineage and recording, for each taxon label at rank r > 0, the
label seen at rank r-1, with a deterministic first-seen policy when a label
is seen with two different parents. -/
def taxonomic_consistency (taxonomy : List (String × List String)) :
    List (String × String) :=
  taxonomy.foldl
    (fun acc pr =>
      (childParentPairs pr.2).foldl
        (fun acc cp => if (alookup cp.1 acc).isSome then acc else acc ++ [cp])
        acc)
    []

/-- `max(rank_hits[rank], key=lambda x: len(rank_hits[rank][x]))` together
with the following `count = len(...)` read: the first key, in iteration
order, whose bucket has maximal length, paired with its bucket.
`none` embeds the `ValueError` that Python's `max` raises on an empty
collection. -/
def max_taxa (bs : Buckets) : Option (String × List HitInfo) :=
  bs.foldl
    (fun best cur =>
      match best with
      | none => some cur
      | some b => if cur.2.length > b.2.length then some cur else best)
    none

/-- One per-rank classification call: `[taxa, rank_hits[rank][taxa]]` for an
accepted taxon, `[unclassified, None]` for the sentinel. -/
abbrev Assign := String × Option (List HitInfo)

/-- Per-sequence classification: `dict[rank] -> Assign`. -/
abbrev SeqAssign := List (ℕ × Assign)

/-- The runtime faults `Profile.classify_seqs` can raise: `ValueError` from
`max` over an empty candidate collection, `KeyError` from
`self.fragments_from_seq[seq_id]`, `KeyError` from `expected_parent[taxa]`. -/
inductive ClassifyErr where
  | emptyCandidates
  | missingFragCount
  | missingParent
deriving DecidableEq, Repr

/-- The rank loop of `Profile.classify_seqs` for one sequence, lines 374-387.
The list argument is the still-unprocessed part of `xrange(0, numRanks)`, so
at loop position `rank` it is exactly `xrange(rank, numRanks)`, which is also
the range the threshold-rejection branch collapses to `unclassified` before
breaking. -/
def classifyRanks (ep : List (String × String)) (fragsO : Option ℕ)
    (sh : SeqHits) :
    List ℕ → Option String → SeqAssign → Except ClassifyErr SeqAssign
  | [], _, acc => .ok acc
  | rank :: rest, parent, acc =>
    match max_taxa ((alookup rank sh).getD []) with
    | none => .error .emptyCandidates
    | some (taxa, bucket) =>
      match fragsO with
      | none => .error .missingFragCount
      | some frags =>
        if (bucket.length : ℚ) ≥ percent_to_classify * (frags : ℚ) then
          if rank = 0 then
            classifyRanks ep fragsO sh rest (some taxa)
              (aset rank (taxa, some bucket) acc)
          else
            match alookup taxa ep with
            | none => .error .missingParent
            | some q =>
              if some q = parent then
                classifyRanks ep fragsO sh rest (some taxa)
                  (aset rank (taxa, some bucket) acc)
              else
                classifyRanks ep fragsO sh rest parent acc
        else
          .ok ((rank :: rest).foldl (fun a r => aset r (unclassified, none) a) acc)

/-- One step of the first loop of `classify_seqs` (one sequence with hits). -/
def classifyStep (ep : List (String × String)) (frags : List (String × ℕ))
    (numRanks : ℕ) (acc : List (String × SeqAssign)) (pr : String × SeqHits) :
    Except ClassifyErr (List (String × SeqAssign)) := do
  let r ← classifyRanks ep (alookup pr.1 frags) pr.2 (List.range numRanks) none []
  pure (acc ++ [(pr.1, r)])

/-- The first loop of `classify_seqs`: classify every sequence with hits. -/
def classifyAll (ep : List (String × String)) (frags : List (String × ℕ))
    (numRanks : ℕ) (hits : Hits) :
    Except ClassifyErr (List (String × SeqAssign)) :=
  hits.foldlM (classifyStep ep frags numRanks) []

/-- An all-`unclassified` per-sequence result, as built for sequences
without hits. -/
def unclassifiedAll (n : ℕ) : SeqAssign :=
  (List.range n).map (fun r => (r, (unclassified, none)))

/-- The second loop of `classify_seqs`, lines 390-393: every sequence of the
length table that received no assignment yet becomes `unclassified` at
every rank. -/
def noHitFill (n : ℕ) (seq_len : List (String × ℕ))
    (acc : List (String × SeqAssign)) : List (String × SeqAssign) :=
  seq_len.foldl
    (fun acc pr =>
      if (alookup pr.1 acc).isSome then acc else acc ++ [(pr.1, unclassifiedAll n)])
    acc

/-- `Profile.classify_seqs`, lines 350-395. -/
def Profile.classify_seqs (p : Profile) :
    Except ClassifyErr (List (String × SeqAssign)) := do
  let ep := taxonomic_consistency p.taxonomy
  let first ← classifyAll ep p.fragments_from_seq p.numRanks p.hits
  pure (noHitFill p.numRanks p.seq_len first)

/-- `numpy.mean` on a list of rationals (the inputs are nonempty wherever the
source evaluates it, since only nonempty hit lists reach it). -/
def qmean (l : List ℚ) : ℚ := l.sum / l.length

/-- Running state of the per-rank loop body of `Profile.profile`:
the rank row of `profile`, and the `num_seqs`, `num_basepairs` and
`hit_stats` accumulators. -/
abbrev RankState :=
  List (String × ℚ) × List (String × ℕ) × List (String × ℕ) ×
    List (String × List HitInfo)

/-- The per-sequence body of the rank loop of `Profile.profile`,
lines 422-429.  `none` embeds the faults this body can raise: the
`ValueError` of unpacking `taxa, hit_info = data[r]` when rank `r` has no
entry, the `KeyError` of `self.seq_len[seq_id]`, the `ZeroDivisionError` of
`float(...) / total_bps` when the genome length is zero, and the `TypeError`
of extending `hit_stats` with a `None` statistics field. -/
def profRankStep (seq_len : List (String × ℕ)) (total_bps : ℕ) (r : ℕ)
    (st : RankState) (e : String × SeqAssign) : Option RankState := do
  let a ← alookup r e.2
  let slen ← alookup e.1 seq_len
  if total_bps = 0 then none else
  let prof := aadd a.1 ((slen : ℚ) / (total_bps : ℚ)) st.1
  let ns := aaddN a.1 1 st.2.1
  let nb := aaddN a.1 slen st.2.2.1
  if a.1 = unclassified then
    pure (prof, ns, nb, st.2.2.2)
  else do
    let l ← a.2
    pure (prof, ns, nb, aconcat a.1 l st.2.2.2)

/-- The statistics row of one rank, lines 432-447: hit-statistic averages
for every taxon of `hit_stats`, then the always-present `unclassified`
entry with absent quality fields. -/
def rankStats (st : RankState) : List (String × TaxaInfo) :=
  aset unclassified
    (TaxaInfo.mk none none none ((alookup unclassified st.2.1).getD 0)
      ((alookup unclassified st.2.2.1).getD 0))
    (st.2.2.2.map
      (fun tl => (tl.1,
        TaxaInfo.mk (some (qmean (tl.2.map HitInfo.evalue)))
          (some (qmean (tl.2.map HitInfo.perc_identity)))
          (some (qmean (tl.2.map HitInfo.aln_length)))
          ((alookup tl.1 st.2.1).getD 0) ((alookup tl.1 st.2.2.1).getD 0))))

/-- One iteration of the rank loop of `Profile.profile`, lines 418-447:
the rank row of the relative-abundance table and the rank row of the
statistics table. -/
def profRank (seq_len : List (String × ℕ)) (total_bps : ℕ) (r : ℕ)
    (asgn : List (String × SeqAssign)) :
    Option (List (String × ℚ) × List (String × TaxaInfo)) := do
  let st ← asgn.foldlM (profRankStep seq_len total_bps r) ([], [], [], [])
  pure (st.1, rankStats st)

/-- One step of the rank loop of `Profile.profile`: extend both tables with
the rows of rank `r`. -/
def profileStep (seq_len : List (String × ℕ)) (total_bps : ℕ)
    (asgn : List (String × SeqAssign))
    (acc : List (ℕ × List (String × ℚ)) × List (ℕ × List (String × TaxaInfo)))
    (r : ℕ) :
    Option (List (ℕ × List (String × ℚ)) × List (ℕ × List (String × TaxaInfo))) := do
  let pr ← profRank seq_len total_bps r asgn
  pure (acc.1 ++ [(r, pr.1)], acc.2 ++ [(r, pr.2)])

/-- `Profile.profile`, lines 397-449: the per-rank relative-abundance table
and the per-rank statistics table.  (Python materialises the outer rank key
of the abundance defaultdict only when a sequence touches it; the embedding
lists every rank, with identical per-rank contents.) -/
def Profile.profile (p : Profile) :
    Option (List (ℕ × List (String × ℚ)) × List (ℕ × List (String × TaxaInfo))) := do
  let asgn ← p.classify_seqs.toOption
  let total_bps := (p.seq_len.map Prod.snd).sum
  (List.range p.numRanks).foldlM (profileStep p.seq_len total_bps asgn)
    (([], []) : List (ℕ × List (String × ℚ)) × List (ℕ × List (String × TaxaInfo)))

/-- `TaxonomicProfile._fragment_genomes`, lines 99-127, for one genome file:
each input sequence is given by its id, its length `len(seq)` and the number
of fragments `len(seq_tk.fragment(seq, window_size, step_size))` produced by
the external fragmentation routine.  The two table writes sit inside
`for i, frag in enumerate(fragments)`, so they run once per fragment and a
sequence with no fragments is never recorded. -/
def fragment_genomes (p : Profile) (seqs : List (String × ℕ × ℕ)) : Profile :=
  seqs.foldl
    (fun p s =>
      (List.range s.2.2).foldl
        (fun p _ =>
          { p with
            fragments_from_seq := aset s.1 s.2.2 p.fragments_from_seq
            seq_len := aset s.1 s.2.1 p.seq_len })
        p)
    p

/-- One call to `Profile.add_hit`, as issued by
`TaxonomicProfile._taxonomic_profiles` with `tax_list = taxonomy[ref_genome_id]`. -/
structure HitCall where
  seq : String
  lineage : List String
  evalue : ℚ
  perc_identity : ℚ
  aln_length : ℚ

/-- Replay a list of `add_hit` calls against a profile (the hit-ingestion
phase). -/
def addCalls (p : Profile) (calls : List HitCall) : Profile :=
  calls.foldl (fun p c => p.add_hit c.seq c.lineage c.evalue c.perc_identity c.aln_length) p

/-! ### Concrete inputs used by the individual claims -/

/-- A shared hit-statistics triple for concrete inputs. -/
def hinfo : HitInfo := ⟨1, 1, 1⟩

/-- Concrete profile for C1: two ranks, consistency table `B ↦ Z`, one
sequence with two hits of lineage `[A, B]` out of four fragments, so at rank
1 the majority candidate `B` passes the threshold but its expected parent
`Z` differs from the accepted domain `A`. -/
def Pc1 : Profile :=
  let p0 : Profile := { numRanks := 2
                      , taxonomy := [("ref2", ["Z", "B"]), ("ref1", ["A", "B"])]
                      , seq_len := [("s", 100)]
                      , fragments_from_seq := [("s", 4)]
                      , hits := [] }
  (p0.add_hit "s" ["A", "B"] 1 1 1).add_hit "s" ["A", "B"] 1 1 1

/-- Concrete profile for C3: three ranks; the rank-1 majority `B` is
inconsistent with the accepted domain `A` (expected parent `Y`), yet the
rank-2 majority `D` has expected parent `A` and is accepted while rank 1
stays unassigned. -/
def Pc3 : Profile :=
  let p0 : Profile := { numRanks := 3
                      , taxonomy := [("r2", ["Y", "B", "C"]), ("r3", ["Z", "A", "D"]), ("r4", ["A", "B", "D"])]
                      , seq_len := [("s", 100)]
                      , fragments_from_seq := [("s", 20)]
                      , hits := [] }
  let p1 := (((p0.add_hit "s" ["A", "B", "D"] 1 1 1).add_hit "s" ["A", "B", "D"] 1 1 1).add_hit
      "s" ["A", "B", "D"] 1 1 1).add_hit "s" ["A", "B", "D"] 1 1 1
  let p2 := ((p1.add_hit "s" ["Z", "A", "D"] 1 1 1).add_hit "s" ["Z", "A", "D"] 1 1 1).add_hit
      "s" ["Z", "A", "D"] 1 1 1
  p2.add_hit "s" ["Y", "B", "C"] 1 1 1

/-- Concrete profile for the C2 witness: one hit out of ten fragments, so the
domain candidate is rejected by the threshold and every rank collapses. -/
def Pw2 : Profile :=
  let p0 : Profile := { numRanks := 3
                      , taxonomy := [("r1", ["A", "B", "C"])]
                      , seq_len := [("s", 10)]
                      , fragments_from_seq := [("s", 10)]
                      , hits := [] }
  p0.add_hit "s" ["A", "B", "C"] 1 1 1

/-- Concrete profile for the C4 witness: one supporting hit out of five
fragments, support exactly 20 percent of the fragment count. -/
def Pw4 : Profile :=
  let p0 : Profile := { numRanks := 1
                      , taxonomy := [("r1", ["A"])]
                      , seq_len := [("s", 10)]
                      , fragments_from_seq := [("s", 5)]
                      , hits := [] }
  p0.add_hit "s" ["A"] 1 1 1

/-- Concrete profile for the C5 witness: two sequences of 100 and 300 bp,
one classified and one without hits. -/
def Pw5 : Profile :=
  let p0 : Profile := { numRanks := 2
                      , taxonomy := [("r1", ["A", "B"])]
                      , seq_len := [("s", 100), ("t", 300)]
                      , fragments_from_seq := [("s", 4), ("t", 7)]
                      , hits := [] }
  (p0.add_hit "s" ["A", "B"] 1 2 3).add_hit "s" ["A", "B"] 3 2 1

/-- Concrete profile for the C6 witness: sequence `t` is known to the
length table and has no hits. -/
def Pw6 : Profile := Pw5

/-- Concrete profile for C7: fragmenting a sequence that yields zero
fragments into an empty profile. -/
def Pc7 : Profile :=
  fragment_genomes
    { numRanks := 2, taxonomy := [], seq_len := [], fragments_from_seq := [], hits := [] }
    [("s", 0, 0)]

/-- Concrete profile for C8: a single fully classified sequence, so no rank
has an unclassified sequence. -/
def Pc8 : Profile :=
  let p0 : Profile := { numRanks := 1
                      , taxonomy := [("r1", ["A"])]
                      , seq_len := [("s", 10)]
                      , fragments_from_seq := [("s", 1)]
                      , hits := [] }
  p0.add_hit "s" ["A"] 1 1 1

/-- Concrete base profile for the C9 witness. -/
def Pw9 : Profile :=
  { numRanks := 2, taxonomy := [("r1", ["A", "B"])], seq_len := [("s", 10)]
  , fragments_from_seq := [("s", 4)], hits := [] }

/-! ### Association-list lemmas -/

theorem alookup_aset_self {β : Type} (k : String) (v : β) (l : List (String × β)) :
    alookup k (aset k v l) = some v := by
  induction l with
  | nil => simp [aset, alookup]
  | cons hd tl ih =>
      by_cases h : hd.1 = k
      · simp [aset, h, alookup]
      · simp [aset, h, alookup, ih]

theorem alookup_aset {α β : Type} [DecidableEq α] (k k₂ : α) (v : β)
    (l : List (α × β)) :
    alookup k₂ (aset k v l) = if k = k₂ then some v else alookup k₂ l := by
  induction l with
  | nil => simp [aset, alookup]
  | cons hd tl ih =>
      obtain ⟨k₁, v₁⟩ := hd
      by_cases hh : k₁ = k
      · subst hh
        by_cases h2 : k₁ = k₂ <;> simp [aset, alookup, h2]
      · by_cases h2 : k₁ = k₂
        · subst h2
          have : ¬k = k₁ := fun he => hh he.symm
          simp [aset, hh, alookup, this]
        · simp [aset, hh, alookup, h2, ih]

theorem alookup_aset_ne {α β : Type} [DecidableEq α] (k k₂ : α) (v : β)
    (l : List (α × β)) (h : k₂ ≠ k) :
    alookup k₂ (aset k v l) = alookup k₂ l := by
  rw [alookup_aset]
  exact if_neg (fun he => h he.symm)

theorem mem_aset {α β : Type} [DecidableEq α] (k : α) (v : β) :
    ∀ (l : List (α × β)) (x : α × β), x ∈ aset k v l → x = (k, v) ∨ x ∈ l := by
  intro l
  induction l with
  | nil =>
      intro x h
      simpa [aset] using h
  | cons hd tl ih =>
      obtain ⟨k₁, v₁⟩ := hd
      intro x h
      by_cases hh : k₁ = k
      · simp only [aset] at h
        rw [if_pos hh] at h
        rcases List.mem_cons.mp h with h1 | h1
        · exact Or.inl h1
        · exact Or.inr (List.mem_cons_of_mem _ h1)
      · simp only [aset] at h
        rw [if_neg hh] at h
        rcases List.mem_cons.mp h with h1 | h1
        · exact Or.inr (List.mem_cons.mpr (Or.inl h1))
        · rcases ih x h1 with h2 | h2
          · exact Or.inl h2
          · exact Or.inr (List.mem_cons_of_mem _ h2)

theorem alookup_append {α β : Type} [DecidableEq α] (k : α)
    (l₁ l₂ : List (α × β)) :
    alookup k (l₁ ++ l₂) =
      match alookup k l₁ with
      | some v => some v
      | none => alookup k l₂ := by
  induction l₁ with
  | nil => simp [alookup]
  | cons hd tl ih =>
      obtain ⟨k₁, v₁⟩ := hd
      by_cases h : k₁ = k <;> simp [alookup, h, ih]

theorem alookup_append_left {α β : Type} [DecidableEq α] (k : α) (v : β)
    (l₁ l₂ : List (α × β)) (h : alookup k l₁ = some v) :
    alookup k (l₁ ++ l₂) = some v := by
  rw [alookup_append, h]

theorem alookup_append_right {α β : Type} [DecidableEq α] (k : α)
    (l₁ l₂ : List (α × β)) (h : alookup k l₁ = none) :
    alookup k (l₁ ++ l₂) = alookup k l₂ := by
  rw [alookup_append, h]

theorem alookup_eq_none_iff {α β : Type} [DecidableEq α] (k : α)
    (l : List (α × β)) : alookup k l = none ↔ k ∉ l.map Prod.fst := by
  induction l with
  | nil => simp [alookup]
  | cons hd tl ih =>
      obtain ⟨k₁, v₁⟩ := hd
      by_cases h : k₁ = k
      · simp [alookup, h]
      · have h2 : ¬k = k₁ := fun he => h he.symm
        simp [alookup, h, ih, h2]

theorem alookup_isSome_iff {α β : Type} [DecidableEq α] (k : α)
    (l : List (α × β)) : (alookup k l).isSome ↔ k ∈ l.map Prod.fst := by
  rcases h : alookup k l with _ | v
  · simpa [h] using (alookup_eq_none_iff k l).mp h
  · simp only [Option.isSome_some, true_iff]
    by_contra hmem
    have := (alookup_eq_none_iff k l).mpr hmem
    rw [h] at this
    exact Option.noConfusion this

theorem alookup_mem {α β : Type} [DecidableEq α] (k : α) (v : β)
    (l : List (α × β)) (h : alookup k l = some v) : (k, v) ∈ l := by
  induction l with
  | nil => simp [alookup] at h
  | cons hd tl ih =>
      obtain ⟨k₁, v₁⟩ := hd
      by_cases hh : k₁ = k
      · subst hh
        simp only [alookup, if_pos rfl] at h
        cases h
        exact List.mem_cons_self _ _
      · simp only [alookup, hh, if_neg hh] at h
        exact List.mem_cons_of_mem _ (ih h)

theorem alookup_unclassifiedAll (n r : ℕ) :
    alookup r (unclassifiedAll n) =
      if r < n then some (unclassified, none) else none := by
  induction n with
  | zero => simp [unclassifiedAll, alookup]
  | succ m ih =>
      have : unclassifiedAll (m + 1) = unclassifiedAll m ++ [(m, (unclassified, none))] := by
        simp [unclassifiedAll, List.range_succ]
      rw [this, alookup_append, ih]
      by_cases h1 : r < m
      · simp [h1, Nat.lt_succ_of_lt h1]
      · by_cases h2 : r = m
        · subst h2
          simp [h1, alookup, Nat.lt_succ_self]
        · have : ¬r < m + 1 := by omega
          have hne : m ≠ r := fun he => h2 he.symm
          simp [h1, this, alookup, hne]

theorem fold_unclass (ks : List ℕ) :
    ∀ (acc : SeqAssign) (r : ℕ),
      alookup r (ks.foldl (fun a k => aset k ((unclassified, none) : Assign) a) acc) =
        if r ∈ ks then some (unclassified, none) else alookup r acc := by
  induction ks with
  | nil => simp
  | cons k t ih =>
      intro acc r
      rw [List.foldl_cons, ih]
      by_cases h1 : r ∈ t
      · simp [h1, List.mem_cons]
      · rw [if_neg h1, alookup_aset]
        by_cases h2 : k = r
        · subst h2
          simp [List.mem_cons]
        · have : r ∉ k :: t := by
            intro hm
            rcases List.mem_cons.mp hm with hm | hm
            · exact h2 hm.symm
            · exact h1 hm
          simp [h2, this]

theorem max_taxa_aux_mem (f : Option (String × List HitInfo) → String × List HitInfo →
      Option (String × List HitInfo))
    (hf : ∀ b c, f b c = b ∨ f b c = some c) :
    ∀ (bs : Buckets) (b : Option (String × List HitInfo)) (x : String × List HitInfo),
      bs.foldl f b = some x → b = some x ∨ x ∈ bs := by
  intro bs
  induction bs with
  | nil =>
      intro b x h
      exact Or.inl h
  | cons c t ih =>
      intro b x h
      rw [List.foldl_cons] at h
      rcases ih (f b c) x h with h1 | h1
      · rcases hf b c with h2 | h2
        · exact Or.inl (h2 ▸ h1)
        · rw [h2] at h1
          cases h1
          exact Or.inr (List.mem_cons_self _ _)
      · exact Or.inr (List.mem_cons_of_mem _ h1)

theorem max_taxa_mem (bs : Buckets) (x : String × List HitInfo)
    (h : max_taxa bs = some x) : x ∈ bs := by
  have hf : ∀ (b : Option (String × List HitInfo)) (c : String × List HitInfo),
      (fun best cur =>
        match best with
        | none => some cur
        | some b => if cur.2.length > b.2.length then some cur else best :
          Option (String × List HitInfo) → String × List HitInfo →
            Option (String × List HitInfo)) b c = b ∨
      (fun best cur =>
        match best with
        | none => some cur
        | some b => if cur.2.length > b.2.length then some cur else best :
          Option (String × List HitInfo) → String × List HitInfo →
            Option (String × List HitInfo)) b c = some c := by
    intro b c
    cases b with
    | none => exact Or.inr rfl
    | some b0 =>
        by_cases hlen : c.2.length > b0.2.length
        · simp [hlen]
        · simp [hlen]
  rcases max_taxa_aux_mem _ hf bs none x h with h1 | h1
  · exact Option.noConfusion h1
  · exact h1

theorem max_taxa_isSome_of_ne_nil (bs : Buckets) (h : bs ≠ []) :
    (max_taxa bs).isSome := by
  have aux : ∀ (t : Buckets) (b : String × List HitInfo),
      (t.foldl
        (fun best cur =>
          match best with
          | none => some cur
          | some b => if cur.2.length > b.2.length then some cur else best)
        (some b)).isSome := by
    intro t
    induction t with
    | nil => intro b; rfl
    | cons c t2 ih =>
        intro b
        rw [List.foldl_cons]
        by_cases hlen : c.2.length > b.2.length
        · simpa [hlen] using ih c
        · simpa [hlen] using ih b
  cases bs with
  | nil => exact absurd rfl h
  | cons c t =>
      rw [max_taxa, List.foldl_cons]
      exact aux t c

theorem classifyRanks_cons_spec (ep : List (String × String)) (fragsO : Option ℕ)
    (sh : SeqHits) (rank : ℕ) (rest : List ℕ) (parent : Option String)
    (acc : SeqAssign) :
    (∃ e, classifyRanks ep fragsO sh (rank :: rest) parent acc = .error e ∧
      (e = .emptyCandidates → max_taxa ((alookup rank sh).getD []) = none))
    ∨ (∃ taxa bucket frags,
        max_taxa ((alookup rank sh).getD []) = some (taxa, bucket) ∧
        fragsO = some frags ∧
        (bucket.length : ℚ) ≥ percent_to_classify * (frags : ℚ) ∧
        (rank = 0 ∨ ∃ q, alookup taxa ep = some q ∧ some q = parent) ∧
        classifyRanks ep fragsO sh (rank :: rest) parent acc =
          classifyRanks ep fragsO sh rest (some taxa) (aset rank (taxa, some bucket) acc))
    ∨ (∃ taxa bucket frags q,
        max_taxa ((alookup rank sh).getD []) = some (taxa, bucket) ∧
        fragsO = some frags ∧
        (bucket.length : ℚ) ≥ percent_to_classify * (frags : ℚ) ∧
        rank ≠ 0 ∧ alookup taxa ep = some q ∧ some q ≠ parent ∧
        classifyRanks ep fragsO sh (rank :: rest) parent acc =
          classifyRanks ep fragsO sh rest parent acc)
    ∨ (∃ taxa bucket frags,
        max_taxa ((alookup rank sh).getD []) = some (taxa, bucket) ∧
        fragsO = some frags ∧
        ¬((bucket.length : ℚ) ≥ percent_to_classify * (frags : ℚ)) ∧
        classifyRanks ep fragsO sh (rank :: rest) parent acc =
          .ok ((rank :: rest).foldl (fun a r => aset r (unclassified, none) a) acc)) := by
  cases hmax : max_taxa ((alookup rank sh).getD []) with
  | none =>
      refine Or.inl ⟨.emptyCandidates, ?_, fun _ => rfl⟩
      simp [classifyRanks, hmax]
  | some tb =>
      obtain ⟨taxa, bucket⟩ := tb
      cases fragsO with
      | none =>
          refine Or.inl ⟨.missingFragCount, ?_, fun he => by cases he⟩
          simp [classifyRanks, hmax]
      | some frags =>
          by_cases hth : (bucket.length : ℚ) ≥ percent_to_classify * (frags : ℚ)
          · by_cases h0 : rank = 0
            · subst h0
              refine Or.inr (Or.inl ⟨taxa, bucket, frags, rfl, rfl, hth, Or.inl rfl, ?_⟩)
              simp [classifyRanks, hmax, hth]
            · cases hep : alookup taxa ep with
              | none =>
                  refine Or.inl ⟨.missingParent, ?_, fun he => by cases he⟩
                  simp [classifyRanks, hmax, hth, h0, hep]
              | some q =>
                  by_cases hq : some q = parent
                  · subst hq
                    refine Or.inr (Or.inl ⟨taxa, bucket, frags, rfl, rfl, hth,
                      Or.inr ⟨q, hep, rfl⟩, ?_⟩)
                    simp [classifyRanks, hmax, hth, h0, hep]
                  · refine Or.inr (Or.inr (Or.inl ⟨taxa, bucket, frags, q, rfl, rfl, hth,
                      h0, hep, hq, ?_⟩))
                    simp [classifyRanks, hmax, hth, h0, hep, hq]
          · refine Or.inr (Or.inr (Or.inr ⟨taxa, bucket, frags, rfl, rfl, hth, ?_⟩))
            simp [classifyRanks, hmax, hth]

theorem classifyRanks_untouched (ep : List (String × String)) (fragsO : Option ℕ)
    (sh : SeqHits) :
    ∀ (ranks : List ℕ) (parent : Option String) (acc res : SeqAssign),
      classifyRanks ep fragsO sh ranks parent acc = .ok res →
      ∀ r, r ∉ ranks → alookup r res = alookup r acc := by
  intro ranks
  induction ranks with
  | nil =>
      intro parent acc res h r _
      simp only [classifyRanks, Except.ok.injEq] at h
      subst h
      rfl
  | cons rank rest ih =>
      intro parent acc res h r hr
      have hrank : rank ≠ r := fun he => hr (he ▸ List.mem_cons_self _ _)
      have hrest : r ∉ rest := fun hm => hr (List.mem_cons_of_mem _ hm)
      rcases classifyRanks_cons_spec ep fragsO sh rank rest parent acc with
        ⟨e, he, _⟩ | ⟨taxa, bucket, frags, _, _, _, _, heq⟩ |
        ⟨taxa, bucket, frags, q, _, _, _, _, _, _, heq⟩ |
        ⟨taxa, bucket, frags, _, _, _, heq⟩
      · rw [he] at h
        exact Except.noConfusion h
      · rw [heq] at h
        rw [ih _ _ _ h r hrest, alookup_aset]
        exact if_neg hrank
      · rw [heq] at h
        exact ih _ _ _ h r hrest
      · rw [heq] at h
        simp only [Except.ok.injEq] at h
        subst h
        rw [fold_unclass]
        exact if_neg hr

theorem classifyRanks_unclass (ep : List (String × String)) (fragsO : Option ℕ)
    (sh : SeqHits) (numRanks : ℕ)
    (hsh : ∀ i b, alookup i sh = some b → ∀ t l, (t, l) ∈ b → t ≠ unclassified) :
    ∀ (n s : ℕ) (parent : Option String) (acc res : SeqAssign),
      s + n = numRanks →
      (∀ r, s ≤ r → alookup r acc = none) →
      (∀ r t st, alookup r acc = some (t, st) → t ≠ unclassified) →
      classifyRanks ep fragsO sh (List.range' s n) parent acc = .ok res →
      ∀ r r₂, r < r₂ → r₂ < numRanks →
        (∃ st, alookup r res = some (unclassified, st)) →
        alookup r₂ res = some (unclassified, none) := by
  intro n
  induction n with
  | zero =>
      intro s parent acc res _ _ hnonu h r r₂ _ _ hu
      simp only [List.range', classifyRanks, Except.ok.injEq] at h
      subst h
      obtain ⟨st, hst⟩ := hu
      exact absurd rfl (hnonu _ _ _ hst)
  | succ m ih =>
      intro s parent acc res hsum hnone hnonu h r r₂ hlt hlt2 hu
      rw [List.range'_succ] at h
      rcases classifyRanks_cons_spec ep fragsO sh s (List.range' (s + 1) m) parent acc with
        ⟨e, he, _⟩ | ⟨taxa, bucket, frags, hmax, _, _, _, heq⟩ |
        ⟨taxa, bucket, frags, q, _, _, _, _, _, _, heq⟩ |
        ⟨taxa, bucket, frags, _, _, _, heq⟩
      · rw [he] at h
        exact Except.noConfusion h
      · rw [heq] at h
        have htaxa : taxa ≠ unclassified := by
          cases hlk : alookup s sh with
          | none =>
              rw [hlk] at hmax
              exact absurd hmax (by simp [max_taxa])
          | some b =>
              rw [hlk] at hmax
              exact hsh s b hlk taxa bucket (max_taxa_mem _ _ hmax)
        refine ih (s + 1) (some taxa) _ res (by omega) ?_ ?_ h r r₂ hlt hlt2 hu
        · intro r₃ hr₃
          rw [alookup_aset]
          rw [if_neg (by omega), hnone r₃ (by omega)]
        · intro r₃ t st hst
          rw [alookup_aset] at hst
          by_cases hsr : s = r₃
          · rw [if_pos hsr] at hst
            cases hst
            exact htaxa
          · rw [if_neg hsr] at hst
            exact hnonu _ _ _ hst
      · rw [heq] at h
        refine ih (s + 1) parent acc res (by omega) ?_ hnonu h r r₂ hlt hlt2 hu
        intro r₃ hr₃
        exact hnone r₃ (by omega)
      · rw [heq] at h
        simp only [Except.ok.injEq] at h
        subst h
        obtain ⟨st, hst⟩ := hu
        rw [fold_unclass] at hst
        have hr_ge : s ≤ r := by
          by_cases hmem : r ∈ s :: List.range' (s + 1) m
          · rcases List.mem_cons.mp hmem with hm | hm
            · omega
            · have := List.mem_range'_1.mp hm
              omega
          · rw [if_neg hmem] at hst
            exact absurd rfl (hnonu _ _ _ hst)
        rw [fold_unclass]
        have hmem2 : r₂ ∈ s :: List.range' (s + 1) m := by
          rcases Nat.eq_or_lt_of_le hr_ge with hc | hc
          · refine List.mem_cons.mpr (Or.inr (List.mem_range'_1.mpr ⟨by omega, by omega⟩))
          · exact List.mem_cons.mpr (Or.inr (List.mem_range'_1.mpr ⟨by omega, by omega⟩))
        rw [if_pos hmem2]

theorem classifyRanks_some_stats (ep : List (String × String)) (fragsO : Option ℕ)
    (sh : SeqHits) :
    ∀ (ranks : List ℕ) (parent : Option String) (acc res : SeqAssign),
      classifyRanks ep fragsO sh ranks parent acc = .ok res →
      ∀ r t l, alookup r res = some (t, some l) →
        alookup r acc = some (t, some l) ∨
        ∃ frags, fragsO = some frags ∧
          (l.length : ℚ) ≥ percent_to_classify * (frags : ℚ) := by
  intro ranks
  induction ranks with
  | nil =>
      intro parent acc res h r t l hlk
      simp only [classifyRanks, Except.ok.injEq] at h
      subst h
      exact Or.inl hlk
  | cons rank rest ih =>
      intro parent acc res h r t l hlk
      rcases classifyRanks_cons_spec ep fragsO sh rank rest parent acc with
        ⟨e, he, _⟩ | ⟨taxa, bucket, frags, _, hfr, hth, _, heq⟩ |
        ⟨taxa, bucket, frags, q, _, _, _, _, _, _, heq⟩ |
        ⟨taxa, bucket, frags, _, _, _, heq⟩
      · rw [he] at h
        exact Except.noConfusion h
      · rw [heq] at h
        rcases ih _ _ _ h r t l hlk with h1 | h1
        · rw [alookup_aset] at h1
          by_cases hsr : rank = r
          · rw [if_pos hsr] at h1
            obtain ⟨he1, he2⟩ := Prod.mk.injEq .. ▸ Option.some.injEq .. ▸ h1
            refine Or.inr ⟨frags, hfr, ?_⟩
            have hbl : some bucket = some l := he2
            cases hbl
            cases he1
            exact hth
          · rw [if_neg hsr] at h1
            exact Or.inl h1
        · exact Or.inr h1
      · rw [heq] at h
        exact ih _ _ _ h r t l hlk
      · rw [heq] at h
        simp only [Except.ok.injEq] at h
        subst h
        rw [fold_unclass] at hlk
        by_cases hmem : r ∈ rank :: rest
        · rw [if_pos hmem] at hlk
          obtain ⟨-, he2⟩ := Prod.mk.injEq .. ▸ Option.some.injEq .. ▸ hlk
          exact Option.noConfusion he2
        · rw [if_neg hmem] at hlk
          exact Or.inl hlk

theorem classifyRanks_no_empty (ep : List (String × String)) (fragsO : Option ℕ)
    (sh : SeqHits) :
    ∀ (ranks : List ℕ), (∀ r ∈ ranks, (alookup r sh).getD [] ≠ []) →
      ∀ (parent : Option String) (acc : SeqAssign),
        classifyRanks ep fragsO sh ranks parent acc ≠ .error .emptyCandidates := by
  intro ranks
  induction ranks with
  | nil =>
      intro _ parent acc
      simp [classifyRanks]
  | cons rank rest ih =>
      intro hne parent acc
      rcases classifyRanks_cons_spec ep fragsO sh rank rest parent acc with
        ⟨e, he, hemp⟩ | ⟨taxa, bucket, frags, _, _, _, _, heq⟩ |
        ⟨taxa, bucket, frags, q, _, _, _, _, _, _, heq⟩ |
        ⟨taxa, bucket, frags, _, _, _, heq⟩
      · intro hcon
        rw [he] at hcon
        have he2 : e = .emptyCandidates := by
          injection hcon
        have hmax := hemp he2
        have hnil := hne rank (List.mem_cons_self _ _)
        have := max_taxa_isSome_of_ne_nil _ hnil
        rw [hmax] at this
        exact Bool.noConfusion this
      · rw [heq]
        exact ih (fun r hr => hne r (List.mem_cons_of_mem _ hr)) _ _
      · rw [heq]
        exact ih (fun r hr => hne r (List.mem_cons_of_mem _ hr)) _ _
      · rw [heq]
        exact fun hcon => Except.noConfusion hcon

theorem classifyStep_ok (ep : List (String × String)) (frags : List (String × ℕ))
    (n : ℕ) (acc : List (String × SeqAssign)) (pr : String × SeqHits)
    (out : List (String × SeqAssign)) :
    classifyStep ep frags n acc pr = .ok out ↔
      ∃ d, classifyRanks ep (alookup pr.1 frags) pr.2 (List.range n) none [] = .ok d ∧
        out = acc ++ [(pr.1, d)] := by
  cases hc : classifyRanks ep (alookup pr.1 frags) pr.2 (List.range n) none [] with
  | error e =>
      simp only [classifyStep, hc]
      constructor
      · intro h
        exact Except.noConfusion h
      · rintro ⟨d, hd, -⟩
        exact Except.noConfusion hd
  | ok d =>
      simp only [classifyStep, hc]
      constructor
      · intro h
        simp only [Except.pure, Except.bind] at h
        injection h with h
        exact ⟨d, rfl, h.symm⟩
      · rintro ⟨d2, hd2, hout⟩
        injection hd2 with hd2
        subst hd2
        subst hout
        rfl

theorem classifyStep_error (ep : List (String × String)) (frags : List (String × ℕ))
    (n : ℕ) (acc : List (String × SeqAssign)) (pr : String × SeqHits) (e : ClassifyErr) :
    classifyStep ep frags n acc pr = .error e ↔
      classifyRanks ep (alookup pr.1 frags) pr.2 (List.range n) none [] = .error e := by
  cases hc : classifyRanks ep (alookup pr.1 frags) pr.2 (List.range n) none [] with
  | error e2 =>
      simp only [classifyStep, hc]
      constructor
      · intro h
        injection h with h
        rw [h]
      · intro h
        injection h with h
        subst h
        rfl
  | ok d =>
      simp only [classifyStep, hc]
      constructor
      · intro h
        simp only [Except.pure, Except.bind] at h
        exact Except.noConfusion h
      · intro h
        exact Except.noConfusion h

theorem foldlM_classify_cons (ep : List (String × String)) (frags : List (String × ℕ))
    (n : ℕ) (x : String × SeqHits) (xs : Hits) (acc res : List (String × SeqAssign)) :
    (x :: xs).foldlM (classifyStep ep frags n) acc = .ok res ↔
      ∃ d, classifyRanks ep (alookup x.1 frags) x.2 (List.range n) none [] = .ok d ∧
        xs.foldlM (classifyStep ep frags n) (acc ++ [(x.1, d)]) = .ok res := by
  rw [List.foldlM_cons]
  cases hstep : classifyStep ep frags n acc x with
  | error e =>
      have hb : ((Except.error e : Except ClassifyErr (List (String × SeqAssign))) >>=
          fun a => xs.foldlM (classifyStep ep frags n) a) = Except.error e := rfl
      rw [hb]
      constructor
      · intro h
        exact Except.noConfusion h
      · rintro ⟨d, hd, -⟩
        have := (classifyStep_ok ep frags n acc x (acc ++ [(x.1, d)])).mpr ⟨d, hd, rfl⟩
        rw [hstep] at this
        exact Except.noConfusion this
  | ok acc2 =>
      obtain ⟨d, hd, hacc2⟩ := (classifyStep_ok ep frags n acc x acc2).mp hstep
      subst hacc2
      have hb : ((Except.ok (acc ++ [(x.1, d)]) : Except ClassifyErr (List (String × SeqAssign))) >>=
          fun a => xs.foldlM (classifyStep ep frags n) a) =
          xs.foldlM (classifyStep ep frags n) (acc ++ [(x.1, d)]) := rfl
      rw [hb]
      constructor
      · intro h
        exact ⟨d, hd, h⟩
      · rintro ⟨d2, hd2, h⟩
        rw [hd] at hd2
        injection hd2 with hd2
        subst hd2
        exact h

theorem foldlM_classify_nil (ep : List (String × String)) (frags : List (String × ℕ))
    (n : ℕ) (acc res : List (String × SeqAssign)) :
    ([] : Hits).foldlM (classifyStep ep frags n) acc = .ok res ↔ res = acc := by
  rw [List.foldlM_nil]
  have hb : (pure acc : Except ClassifyErr (List (String × SeqAssign))) = .ok acc := rfl
  rw [hb]
  constructor
  · intro h
    injection h with h
    exact h.symm
  · intro h
    subst h
    rfl

theorem classifyAll_fold_keys (ep : List (String × String)) (frags : List (String × ℕ))
    (n : ℕ) :
    ∀ (hits : Hits) (acc res : List (String × SeqAssign)),
      hits.foldlM (classifyStep ep frags n) acc = .ok res →
      res.map Prod.fst = acc.map Prod.fst ++ hits.map Prod.fst := by
  intro hits
  induction hits with
  | nil =>
      intro acc res h
      rw [foldlM_classify_nil] at h
      subst h
      simp
  | cons x xs ih =>
      intro acc res h
      obtain ⟨d, -, h⟩ := (foldlM_classify_cons ep frags n x xs acc res).mp h
      rw [ih _ _ h]
      simp

theorem classifyAll_fold_mem (ep : List (String × String)) (frags : List (String × ℕ))
    (n : ℕ) :
    ∀ (hits : Hits) (acc res : List (String × SeqAssign)),
      hits.foldlM (classifyStep ep frags n) acc = .ok res →
      ∀ s d, (s, d) ∈ res →
        (s, d) ∈ acc ∨ ∃ sh, (s, sh) ∈ hits ∧
          classifyRanks ep (alookup s frags) sh (List.range n) none [] = .ok d := by
  intro hits
  induction hits with
  | nil =>
      intro acc res h s d hm
      rw [foldlM_classify_nil] at h
      subst h
      exact Or.inl hm
  | cons x xs ih =>
      intro acc res h s d hm
      obtain ⟨d0, hd0, h⟩ := (foldlM_classify_cons ep frags n x xs acc res).mp h
      rcases ih _ _ h s d hm with h1 | ⟨sh, hsh, hcl⟩
      · rcases List.mem_append.mp h1 with h2 | h2
        · exact Or.inl h2
        · have h3 : (s, d) = (x.1, d0) := List.mem_singleton.mp h2
          obtain ⟨he1, he2⟩ := Prod.mk.injEq .. ▸ h3
          subst he1
          subst he2
          refine Or.inr ⟨x.2, ?_, hd0⟩
          exact (Prod.mk.eta (p := x)) ▸ List.mem_cons_self _ _
      · exact Or.inr ⟨sh, List.mem_cons_of_mem _ hsh, hcl⟩

theorem classifyAll_fold_lookup_none (ep : List (String × String))
    (frags : List (String × ℕ)) (n : ℕ) :
    ∀ (hits : Hits) (acc res : List (String × SeqAssign)) (s : String),
      s ∉ hits.map Prod.fst →
      hits.foldlM (classifyStep ep frags n) acc = .ok res →
      alookup s res = alookup s acc := by
  intro hits
  induction hits with
  | nil =>
      intro acc res s _ h
      rw [foldlM_classify_nil] at h
      subst h
      rfl
  | cons x xs ih =>
      intro acc res s hs h
      have hs1 : s ≠ x.1 := fun he => hs (by simp [he])
      have hs2 : s ∉ xs.map Prod.fst := fun hm => hs (by simp [hm])
      obtain ⟨d, -, h⟩ := (foldlM_classify_cons ep frags n x xs acc res).mp h
      rw [ih _ _ s hs2 h, alookup_append]
      cases hacc : alookup s acc with
      | none =>
          have hxs : ¬x.1 = s := fun he => hs1 he.symm
          simp [alookup, hxs]
      | some v => rfl

theorem classifyAll_fold_ne_empty (ep : List (String × String))
    (frags : List (String × ℕ)) (n : ℕ) :
    ∀ (hits : Hits) (acc : List (String × SeqAssign)),
      (∀ pr ∈ hits, classifyRanks ep (alookup pr.1 frags) pr.2 (List.range n) none [] ≠
        .error .emptyCandidates) →
      hits.foldlM (classifyStep ep frags n) acc ≠ .error .emptyCandidates := by
  intro hits
  induction hits with
  | nil =>
      intro acc _
      rw [List.foldlM_nil]
      intro h
      exact Except.noConfusion h
  | cons x xs ih =>
      intro acc hne
      rw [List.foldlM_cons]
      cases hstep : classifyStep ep frags n acc x with
      | error e =>
          have hb : ((Except.error e : Except ClassifyErr (List (String × SeqAssign))) >>=
              fun a => xs.foldlM (classifyStep ep frags n) a) = Except.error e := rfl
          rw [hb]
          intro h
          injection h with h
          subst h
          exact hne x (List.mem_cons_self _ _)
            ((classifyStep_error ep frags n acc x _).mp hstep)
      | ok acc2 =>
          have hb : ((Except.ok acc2 : Except ClassifyErr (List (String × SeqAssign))) >>=
              fun a => xs.foldlM (classifyStep ep frags n) a) =
              xs.foldlM (classifyStep ep frags n) acc2 := rfl
          rw [hb]
          exact ih acc2 (fun pr hpr => hne pr (List.mem_cons_of_mem _ hpr))

theorem noHitFill_mem (n : ℕ) :
    ∀ (sl : List (String × ℕ)) (acc : List (String × SeqAssign))
      (x : String × SeqAssign), x ∈ noHitFill n sl acc →
      x ∈ acc ∨ x.2 = unclassifiedAll n := by
  intro sl
  induction sl with
  | nil =>
      intro acc x h
      exact Or.inl h
  | cons hd tl ih =>
      intro acc x h
      rw [noHitFill, List.foldl_cons] at h
      by_cases hlk : (alookup hd.1 acc).isSome
      · rw [if_pos hlk] at h
        exact ih acc x h
      · rw [if_neg hlk] at h
        rcases ih _ x h with h1 | h1
        · rcases List.mem_append.mp h1 with h2 | h2
          · exact Or.inl h2
          · have h3 : x = (hd.1, unclassifiedAll n) := List.mem_singleton.mp h2
            exact Or.inr (by rw [h3])
        · exact Or.inr h1

theorem noHitFill_lookup_some (n : ℕ) :
    ∀ (sl : List (String × ℕ)) (acc : List (String × SeqAssign)) (s : String)
      (v : SeqAssign), alookup s acc = some v →
      alookup s (noHitFill n sl acc) = some v := by
  intro sl
  induction sl with
  | nil =>
      intro acc s v h
      exact h
  | cons hd tl ih =>
      intro acc s v h
      rw [noHitFill, List.foldl_cons]
      by_cases hlk : (alookup hd.1 acc).isSome
      · rw [if_pos hlk]
        exact ih acc s v h
      · rw [if_neg hlk]
        exact ih _ s v (alookup_append_left _ _ _ _ h)

theorem noHitFill_lookup_fill (n : ℕ) :
    ∀ (sl : List (String × ℕ)) (acc : List (String × SeqAssign)) (s : String)
      (L : ℕ), alookup s acc = none → alookup s sl = some L →
      alookup s (noHitFill n sl acc) = some (unclassifiedAll n) := by
  intro sl
  induction sl with
  | nil =>
      intro acc s L _ h2
      exact absurd h2 (by simp [alookup])
  | cons hd tl ih =>
      intro acc s L h1 h2
      obtain ⟨k₁, v₁⟩ := hd
      rw [noHitFill, List.foldl_cons]
      by_cases hks : k₁ = s
      · subst hks
        have hlk : ¬(alookup k₁ acc).isSome := by
          rw [h1]
          exact fun hc => Bool.noConfusion hc
        rw [if_neg hlk]
        refine noHitFill_lookup_some n tl _ k₁ _ ?_
        rw [alookup_append_right _ _ _ h1]
        simp [alookup]
      · have h2t : alookup s tl = some L := by
          simpa [alookup, hks] using h2
        by_cases hlk : (alookup k₁ acc).isSome
        · rw [if_pos hlk]
          exact ih acc s L h1 h2t
        · rw [if_neg hlk]
          refine ih _ s L ?_ h2t
          rw [alookup_append_right _ _ _ h1]
          simp [alookup, hks]

theorem noHitFill_keys_sub (n : ℕ) :
    ∀ (sl : List (String × ℕ)) (acc : List (String × SeqAssign)) (s : String),
      s ∈ (noHitFill n sl acc).map Prod.fst →
      s ∈ acc.map Prod.fst ∨ s ∈ sl.map Prod.fst := by
  intro sl
  induction sl with
  | nil =>
      intro acc s h
      exact Or.inl h
  | cons hd tl ih =>
      intro acc s h
      rw [noHitFill, List.foldl_cons] at h
      by_cases hlk : (alookup hd.1 acc).isSome
      · rw [if_pos hlk] at h
        rcases ih acc s h with h1 | h1
        · exact Or.inl h1
        · exact Or.inr (by simp [h1])
      · rw [if_neg hlk] at h
        rcases ih _ s h with h1 | h1
        · rw [List.map_append, List.mem_append] at h1
          rcases h1 with h2 | h2
          · exact Or.inl h2
          · have : s = hd.1 := by simpa using h2
            exact Or.inr (by simp [this])
        · exact Or.inr (by simp [h1])

theorem noHitFill_nodup (n : ℕ) :
    ∀ (sl : List (String × ℕ)) (acc : List (String × SeqAssign)),
      (acc.map Prod.fst).Nodup → ((noHitFill n sl acc).map Prod.fst).Nodup := by
  intro sl
  induction sl with
  | nil =>
      intro acc h
      exact h
  | cons hd tl ih =>
      intro acc h
      rw [noHitFill, List.foldl_cons]
      by_cases hlk : (alookup hd.1 acc).isSome
      · rw [if_pos hlk]
        exact ih acc h
      · rw [if_neg hlk]
        refine ih _ ?_
        rw [List.map_append]
        have hnm : hd.1 ∉ acc.map Prod.fst := by
          rw [← alookup_eq_none_iff (β := SeqAssign)]
          rcases hcase : alookup hd.1 acc with _ | v
          · rfl
          · rw [hcase] at hlk
            exact absurd rfl hlk
        simp [List.nodup_append, h, hnm]

theorem noHitFill_keys_mem (n : ℕ) (sl : List (String × ℕ))
    (acc : List (String × SeqAssign)) (s : String) (h : s ∈ sl.map Prod.fst) :
    (alookup s (noHitFill n sl acc)).isSome := by
  have hsl : (alookup s sl).isSome := (alookup_isSome_iff s sl).mpr h
  rcases hL : alookup s sl with _ | L
  · rw [hL] at hsl
    exact Bool.noConfusion hsl
  · rcases hacc : alookup s acc with _ | v
    · rw [noHitFill_lookup_fill n sl acc s L hacc hL]
      rfl
    · rw [noHitFill_lookup_some n sl acc s v hacc]
      rfl

theorem classify_seqs_ok_iff (p : Profile) (asgn : List (String × SeqAssign)) :
    p.classify_seqs = .ok asgn ↔
      ∃ first,
        classifyAll (taxonomic_consistency p.taxonomy) p.fragments_from_seq
          p.numRanks p.hits = .ok first ∧
        asgn = noHitFill p.numRanks p.seq_len first := by
  cases hc : classifyAll (taxonomic_consistency p.taxonomy) p.fragments_from_seq
      p.numRanks p.hits with
  | error e =>
      constructor
      · intro h
        have hb : p.classify_seqs = .error e := by
          simp only [Profile.classify_seqs, hc]
          rfl
        rw [hb] at h
        exact Except.noConfusion h
      · rintro ⟨first, hf, -⟩
        exact Except.noConfusion hf
  | ok first =>
      have hb : p.classify_seqs = .ok (noHitFill p.numRanks p.seq_len first) := by
        simp only [Profile.classify_seqs, hc]
        rfl
      rw [hb]
      constructor
      · intro h
        injection h with h
        exact ⟨first, rfl, h.symm⟩
      · rintro ⟨f2, hf2, ha⟩
        injection hf2 with hf2
        subst hf2
        subst ha
        rfl

theorem classify_seqs_ne_empty (p : Profile)
    (h : classifyAll (taxonomic_consistency p.taxonomy) p.fragments_from_seq
      p.numRanks p.hits ≠ .error .emptyCandidates) :
    p.classify_seqs ≠ .error .emptyCandidates := by
  cases hc : classifyAll (taxonomic_consistency p.taxonomy) p.fragments_from_seq
      p.numRanks p.hits with
  | error e =>
      have hb : p.classify_seqs = .error e := by
        simp only [Profile.classify_seqs, hc]
        rfl
      rw [hb]
      intro hcon
      injection hcon with hcon
      subst hcon
      exact h hc
  | ok first =>
      have hb : p.classify_seqs = .ok (noHitFill p.numRanks p.seq_len first) := by
        simp only [Profile.classify_seqs, hc]
        rfl
      rw [hb]
      intro hcon
      exact Except.noConfusion hcon

/-- C1 (code_bug evidence): on `Pc1` the rank-1 majority candidate `B`
passes the 20 percent threshold (2 of 4 fragments) but its expected parent
`Z` differs from the accepted domain `A`.  The claim (and the docstring of
`classify_seqs`) says rank 1 is then set to `unclassified` and processing
stops; the code instead records no entry at all at rank 1: the returned
assignment for sequence `s` holds only the rank-0 call. -/
theorem c1_inconsistency_not_collapsed :
    Pc1.classify_seqs = .ok [("s", [(0, ("A", some [hinfo, hinfo]))])] ∧
    alookup 1 [((0 : ℕ), (("A", some [hinfo, hinfo]) : Assign))] = none := by
  constructor
  · with_unfolding_all rfl
  · rfl

/-- C3 (code_bug evidence): on `Pc3` the code accepts taxon `D` at rank 2
(whose expected parent is the rank-0 call `A`) while rank 1 received no
assignment at all, because the carried parent is the last accepted taxon,
not the taxon of rank r-1.  So a sequence is classified to a real taxon at
rank 2 whose expected parent is not the taxon assigned at rank 1 (nothing
is assigned at rank 1), violating the claimed invariant. -/
theorem c3_parent_consistency_violated :
    Pc3.classify_seqs = .ok [("s",
      [(0, ("A", some [hinfo, hinfo, hinfo, hinfo])),
       (2, ("D", some [hinfo, hinfo, hinfo, hinfo, hinfo, hinfo, hinfo]))])] ∧
    alookup 2 [((0 : ℕ), (("A", some [hinfo, hinfo, hinfo, hinfo]) : Assign)),
       (2, ("D", some [hinfo, hinfo, hinfo, hinfo, hinfo, hinfo, hinfo]))] =
      some ("D", some [hinfo, hinfo, hinfo, hinfo, hinfo, hinfo, hinfo]) ∧
    alookup 1 [((0 : ℕ), (("A", some [hinfo, hinfo, hinfo, hinfo]) : Assign)),
       (2, ("D", some [hinfo, hinfo, hinfo, hinfo, hinfo, hinfo, hinfo]))] = none := by
  refine ⟨?_, rfl, rfl⟩
  with_unfolding_all rfl

/-- C2: monotonic collapse invariant of `classify_seqs`: if a sequence is
`unclassified` at rank r, it is `unclassified` (with no statistics) at every
rank r₂ with r < r₂ < numRanks.  The hypothesis `hu` states that the
sentinel label does not occur as a reference taxon among the accumulated
hits, which separates the sentinel from real taxon labels. -/
theorem c2_monotonic_collapse (p : Profile)
    (hu : ∀ x ∈ p.hits, ∀ y ∈ x.2, ∀ z ∈ y.2, z.1 ≠ unclassified)
    (asgn : List (String × SeqAssign)) (hok : p.classify_seqs = .ok asgn)
    (s : String) (d : SeqAssign) (hmem : (s, d) ∈ asgn)
    (r r₂ : ℕ) (hlt : r < r₂) (hr₂ : r₂ < p.numRanks)
    (st : Option (List HitInfo)) (hr : alookup r d = some (unclassified, st)) :
    alookup r₂ d = some (unclassified, none) := by
  obtain ⟨first, hfirst, ha⟩ := (classify_seqs_ok_iff p asgn).mp hok
  subst ha
  rcases noHitFill_mem _ _ _ _ hmem with hm | hm
  · rcases classifyAll_fold_mem _ _ _ _ _ _ hfirst s d hm with hacc | ⟨sh, hsh, hcl⟩
    · exact absurd hacc (List.not_mem_nil _)
    · rw [List.range_eq_range'] at hcl
      refine classifyRanks_unclass (taxonomic_consistency p.taxonomy)
        (alookup s p.fragments_from_seq) sh p.numRanks
        (fun i b hb t l hm2 => hu (s, sh) hsh (i, b) (alookup_mem i b sh hb) (t, l) hm2)
        p.numRanks 0 none [] d (Nat.zero_add _) (fun _ _ => rfl)
        (fun r₃ t st2 hst => absurd hst (by simp [alookup])) hcl
        r r₂ hlt hr₂ ⟨st, hr⟩
  · have hd : d = unclassifiedAll p.numRanks := hm
    subst hd
    rw [alookup_unclassifiedAll]
    exact if_pos hr₂

/-- C2 witness: on `Pw2` the single hit covers only 1 of 10 fragments, the
rank-0 candidate is rejected by the threshold and every rank is
`unclassified`; the theorem then forces rank 1. -/
theorem c2_monotonic_collapse_witness :
    alookup 1 (unclassifiedAll 3) = some (unclassified, none) :=
  c2_monotonic_collapse Pw2 (by with_unfolding_all decide)
    [("s", unclassifiedAll 3)] (by with_unfolding_all rfl)
    "s" (unclassifiedAll 3) (by with_unfolding_all decide)
    0 1 (by decide) (by decide) none (by with_unfolding_all rfl)

/-- C4: the threshold rule of `classify_seqs`.  First part: every accepted
taxon (an entry carrying supporting statistics) is supported by at least
`percent_to_classify` times the fragment count of its sequence; the stored
list is exactly the supporting bucket, so its length is the support count.
Second part: when the majority candidate of a rank falls below the
threshold, the rank and every remaining rank collapse to `unclassified`.
Acceptance at support exactly 20 percent is exercised by the witness. -/
theorem c4_threshold_rule :
    (∀ (p : Profile) (asgn : List (String × SeqAssign)) (s : String)
        (d : SeqAssign) (r : ℕ) (t : String) (l : List HitInfo),
        p.classify_seqs = .ok asgn → (s, d) ∈ asgn →
        alookup r d = some (t, some l) →
        ∃ f, alookup s p.fragments_from_seq = some f ∧
          (l.length : ℚ) ≥ percent_to_classify * (f : ℚ)) ∧
    (∀ (ep : List (String × String)) (sh : SeqHits) (rank : ℕ) (rest : List ℕ)
        (parent : Option String) (acc : SeqAssign) (t : String)
        (l : List HitInfo) (f : ℕ),
        max_taxa ((alookup rank sh).getD []) = some (t, l) →
        ¬((l.length : ℚ) ≥ percent_to_classify * (f : ℚ)) →
        classifyRanks ep (some f) sh (rank :: rest) parent acc =
          .ok ((rank :: rest).foldl (fun a r₂ => aset r₂ (unclassified, none) a) acc)) := by
  constructor
  · intro p asgn s d r t l hok hmem hlk
    obtain ⟨first, hfirst, ha⟩ := (classify_seqs_ok_iff p asgn).mp hok
    subst ha
    rcases noHitFill_mem _ _ _ _ hmem with hm | hm
    · rcases classifyAll_fold_mem _ _ _ _ _ _ hfirst s d hm with hacc | ⟨sh, hsh, hcl⟩
      · exact absurd hacc (List.not_mem_nil _)
      · rcases classifyRanks_some_stats _ _ _ _ _ _ _ hcl r t l hlk with h1 | h1
        · exact absurd h1 (by simp [alookup])
        · exact h1
    · have hd : d = unclassifiedAll p.numRanks := hm
      subst hd
      rw [alookup_unclassifiedAll] at hlk
      by_cases hrn : r < p.numRanks
      · rw [if_pos hrn] at hlk
        injection hlk with hlk
        obtain ⟨-, h2⟩ := Prod.mk.injEq .. ▸ hlk
        exact absurd h2.symm (by simp)
      · rw [if_neg hrn] at hlk
        exact Option.noConfusion hlk
  · intro ep sh rank rest parent acc t l f hmax hth
    simp [classifyRanks, hmax, hth]

/-- C4 witness: on `Pw4` one hit out of five fragments is support exactly
equal to 20 percent of the fragment count and the sequence is classified;
the second half shows a 1-of-10 support (10 percent) collapsing the rank. -/
theorem c4_threshold_rule_witness :
    (∃ f, alookup "s" Pw4.fragments_from_seq = some f ∧
      (([hinfo].length : ℚ) ≥ percent_to_classify * (f : ℚ))) ∧
    classifyRanks [] (some 10) [(0, [("A", [hinfo])])] [0] none [] =
      .ok ([0].foldl (fun a r₂ => aset r₂ ((unclassified, none) : Assign) a) []) :=
  ⟨c4_threshold_rule.1 Pw4 [("s", [(0, ("A", some [hinfo]))])] "s"
      [(0, ("A", some [hinfo]))] 0 "A" [hinfo]
      (by with_unfolding_all rfl) (by with_unfolding_all decide) rfl,
   c4_threshold_rule.2 [] [(0, [("A", [hinfo])])] 0 [] none [] "A" [hinfo] 10
      rfl (by with_unfolding_all decide)⟩

/-- C6: a sequence known to the length table with no hits at all is
assigned the sentinel at every rank with no statistics, in every successful
classification; and when the whole profile has no hits, classification
always succeeds, so the zero-hit case is an ordinary result, not an error. -/
theorem c6_zero_hits_unclassified (p : Profile) (s : String) (L : ℕ)
    (hlen : alookup s p.seq_len = some L)
    (hnohit : s ∉ p.hits.map Prod.fst) :
    (∀ asgn, p.classify_seqs = .ok asgn →
      alookup s asgn = some (unclassifiedAll p.numRanks)) ∧
    (p.hits = [] → ∃ asgn, p.classify_seqs = .ok asgn ∧
      alookup s asgn = some (unclassifiedAll p.numRanks)) := by
  constructor
  · intro asgn hok
    obtain ⟨first, hfirst, ha⟩ := (classify_seqs_ok_iff p asgn).mp hok
    subst ha
    have hfn : alookup s first = none := by
      rw [classifyAll_fold_lookup_none _ _ _ _ _ _ s hnohit hfirst]
      rfl
    exact noHitFill_lookup_fill p.numRanks p.seq_len first s L hfn hlen
  · intro hnil
    refine ⟨noHitFill p.numRanks p.seq_len [], ?_, ?_⟩
    · rw [classify_seqs_ok_iff]
      refine ⟨[], ?_, rfl⟩
      rw [classifyAll, hnil]
      rfl
    · exact noHitFill_lookup_fill p.numRanks p.seq_len [] s L rfl hlen

/-- C6 witness: on `Pw6` the 300 bp sequence `t` has no hits and is
`unclassified` at both ranks of the returned classification. -/
theorem c6_zero_hits_unclassified_witness :
    alookup "t" [("s",
      [((0 : ℕ), (("A", some [⟨1, 2, 3⟩, ⟨3, 2, 1⟩]) : Assign)),
       (1, ("B", some [⟨1, 2, 3⟩, ⟨3, 2, 1⟩]))]),
      ("t", unclassifiedAll 2)] = some (unclassifiedAll 2) :=
  (c6_zero_hits_unclassified Pw6 "t" 300 (by with_unfolding_all rfl)
      (by with_unfolding_all decide)).1
    [("s", [(0, ("A", some [⟨1, 2, 3⟩, ⟨3, 2, 1⟩])),
            (1, ("B", some [⟨1, 2, 3⟩, ⟨3, 2, 1⟩]))]),
     ("t", unclassifiedAll 2)]
    (by with_unfolding_all rfl)

/-- C10: when at a rank r > 0 the majority candidate passes the threshold
but its expected parent differs from the carried parent, the rank loop of
`classify_seqs` records no entry for that rank (neither a taxon nor the
sentinel) and continues with the next rank, with the carried parent
unchanged, instead of stopping. -/
theorem c10_inconsistent_rank_skipped (ep : List (String × String))
    (fragsO : Option ℕ) (sh : SeqHits) (rank : ℕ) (rest : List ℕ)
    (parent : Option String) (acc : SeqAssign) (t : String) (l : List HitInfo)
    (f : ℕ) (q : String)
    (h0 : rank ≠ 0)
    (hmax : max_taxa ((alookup rank sh).getD []) = some (t, l))
    (hfr : fragsO = some f)
    (hth : (l.length : ℚ) ≥ percent_to_classify * (f : ℚ))
    (hep : alookup t ep = some q)
    (hne : some q ≠ parent)
    (hacc : alookup rank acc = none) (hrest : rank ∉ rest) :
    classifyRanks ep fragsO sh (rank :: rest) parent acc =
      classifyRanks ep fragsO sh rest parent acc ∧
    ∀ res, classifyRanks ep fragsO sh rest parent acc = .ok res →
      alookup rank res = none := by
  subst hfr
  constructor
  · simp [classifyRanks, hmax, hth, h0, hep, hne]
  · intro res hres
    rw [classifyRanks_untouched ep (some f) sh rest parent acc res hres rank hrest]
    exact hacc

/-- C10 witness: the `Pc1` situation at rank 1: candidate `B` with expected
parent `Z` against carried parent `A`; the step is a no-op and the final
result holds nothing at rank 1. -/
theorem c10_inconsistent_rank_skipped_witness :
    (classifyRanks [("B", "Z")] (some 4) [(0, [("A", [hinfo])]), (1, [("B", [hinfo])])]
        [1] (some "A") [(0, ("A", some [hinfo]))] =
      classifyRanks [("B", "Z")] (some 4) [(0, [("A", [hinfo])]), (1, [("B", [hinfo])])]
        [] (some "A") [(0, ("A", some [hinfo]))]) ∧
    alookup 1 [((0 : ℕ), (("A", some [hinfo]) : Assign))] = none :=
  ⟨(c10_inconsistent_rank_skipped [("B", "Z")] (some 4)
      [(0, [("A", [hinfo])]), (1, [("B", [hinfo])])] 1 [] (some "A")
      [(0, ("A", some [hinfo]))] "B" [hinfo] 4 "Z"
      (by decide) (by with_unfolding_all rfl) rfl (by with_unfolding_all decide)
      (by with_unfolding_all rfl) (by with_unfolding_all decide) rfl
      (by decide)).1,
   (c10_inconsistent_rank_skipped [("B", "Z")] (some 4)
      [(0, [("A", [hinfo])]), (1, [("B", [hinfo])])] 1 [] (some "A")
      [(0, ("A", some [hinfo]))] "B" [hinfo] 4 "Z"
      (by decide) (by with_unfolding_all rfl) rfl (by with_unfolding_all decide)
      (by with_unfolding_all rfl) (by with_unfolding_all decide) rfl
      (by decide)).2 [(0, ("A", some [hinfo]))] rfl⟩

theorem aset_ne_nil {α β : Type} [DecidableEq α] (k : α) (v : β)
    (l : List (α × β)) : aset k v l ≠ [] := by
  cases l with
  | nil => simp [aset]
  | cons hd tl =>
      obtain ⟨k₁, v₁⟩ := hd
      by_cases h : k₁ = k <;> simp [aset, h]

theorem seqHitsAdd_lookup_lt (h : HitInfo) :
    ∀ (tl : List String) (i : ℕ) (sh : SeqHits) (r : ℕ), r < i →
      alookup r (seqHitsAdd h tl i sh) = alookup r sh := by
  intro tl
  induction tl with
  | nil =>
      intro i sh r _
      rfl
  | cons taxa rest ih =>
      intro i sh r hr
      rw [seqHitsAdd, ih (i + 1) _ r (by omega), alookup_aset]
      rw [if_neg (by omega)]

theorem seqHitsAdd_bucket (h : HitInfo) :
    ∀ (tl : List String) (i : ℕ) (sh : SeqHits) (r : ℕ), i ≤ r →
      r < i + tl.length →
      ∃ b, alookup r (seqHitsAdd h tl i sh) = some b ∧ b ≠ [] := by
  intro tl
  induction tl with
  | nil =>
      intro i sh r h1 h2
      simp at h2
      omega
  | cons taxa rest ih =>
      intro i sh r h1 h2
      by_cases hri : r = i
      · subst hri
        rw [seqHitsAdd, seqHitsAdd_lookup_lt h rest (r + 1) _ r (by omega)]
        rw [alookup_aset, if_pos rfl]
        exact ⟨_, rfl, aset_ne_nil _ _ _⟩
      · rw [seqHitsAdd]
        refine ih (i + 1) _ r (by omega) ?_
        simp at h2
        omega

theorem addCalls_numRanks (p : Profile) (calls : List HitCall) :
    (addCalls p calls).numRanks = p.numRanks := by
  induction calls generalizing p with
  | nil => rfl
  | cons c rest ih =>
      rw [addCalls, List.foldl_cons]
      exact ih _

theorem addCalls_bucket_invariant (p : Profile) (calls : List HitCall)
    (hlen : ∀ c ∈ calls, c.lineage.length = p.numRanks)
    (hinv : ∀ s sh, (s, sh) ∈ p.hits → ∀ r, r < p.numRanks →
      ∃ b, alookup r sh = some b ∧ b ≠ []) :
    ∀ s sh, (s, sh) ∈ (addCalls p calls).hits → ∀ r, r < p.numRanks →
      ∃ b, alookup r sh = some b ∧ b ≠ [] := by
  induction calls generalizing p with
  | nil =>
      intro s sh hm r hr
      exact hinv s sh hm r hr
  | cons c rest ih =>
      intro s sh hm r hr
      rw [addCalls, List.foldl_cons] at hm
      have hnr : (p.add_hit c.seq c.lineage c.evalue c.perc_identity c.aln_length).numRanks
          = p.numRanks := rfl
      refine ih _ ?_ ?_ s sh hm r (by rw [hnr]; exact hr)
      · intro c2 hc2
        rw [hnr]
        exact hlen c2 (List.mem_cons_of_mem _ hc2)
      · intro s2 sh2 hm2 r2 hr2
        rw [hnr] at hr2
        have hm3 := mem_aset _ _ _ _ hm2
        rcases hm3 with hm3 | hm3
        · obtain ⟨he1, he2⟩ := Prod.mk.injEq .. ▸ hm3
          subst he1
          subst he2
          refine seqHitsAdd_bucket _ c.lineage 0 _ r2 (Nat.zero_le _) ?_
          rw [hlen c (List.mem_cons_self _ _)]
          omega
        · exact hinv s2 sh2 hm3 r2 hr2

/-- C9: when every lineage passed to `add_hit` has exactly `numRanks`
entries, every sequence entry of the hit table has a non-empty candidate
bucket at every rank, so the majority vote of `classify_seqs` is never
applied to an empty collection: the `ValueError` branch of the embedded
`max` is unreachable. -/
theorem c9_no_empty_candidates (p0 : Profile) (calls : List HitCall)
    (h0 : p0.hits = [])
    (hlen : ∀ c ∈ calls, c.lineage.length = p0.numRanks) :
    (addCalls p0 calls).classify_seqs ≠ .error .emptyCandidates := by
  have hinv := addCalls_bucket_invariant p0 calls hlen
    (by
      intro s sh hm
      rw [h0] at hm
      exact absurd hm (List.not_mem_nil _))
  refine classify_seqs_ne_empty _ ?_
  refine classifyAll_fold_ne_empty _ _ _ _ _ ?_
  intro pr hpr
  refine classifyRanks_no_empty _ _ _ _ ?_ _ _
  intro r hrr
  rw [addCalls_numRanks, List.mem_range] at hrr
  obtain ⟨b, hb, hbne⟩ := hinv pr.1 pr.2 (by
    exact (Prod.mk.eta (p := pr)) ▸ hpr) r hrr
  rw [hb]
  exact hbne

/-- C9 witness: one `add_hit` call with a full-length lineage on an empty
profile; classification does not raise the empty-collection error. -/
theorem c9_no_empty_candidates_witness :
    (addCalls Pw9 [⟨"s", ["A", "B"], 1, 1, 1⟩]).classify_seqs ≠
      .error .emptyCandidates :=
  c9_no_empty_candidates Pw9 [⟨"s", ["A", "B"], 1, 1, 1⟩] rfl
    (by with_unfolding_all decide)

theorem alookup_append_singleton_ne {α β : Type} [DecidableEq α] (k x : α)
    (v : β) (l : List (α × β)) (h : x ≠ k) :
    alookup k (l ++ [(x, v)]) = alookup k l := by
  rw [alookup_append]
  cases hl : alookup k l with
  | none => simp [alookup, h]
  | some w => rfl

theorem profileStep_some (sl : List (String × ℕ)) (tb : ℕ)
    (asgn : List (String × SeqAssign))
    (acc out : List (ℕ × List (String × ℚ)) × List (ℕ × List (String × TaxaInfo)))
    (r : ℕ) :
    profileStep sl tb asgn acc r = some out ↔
      ∃ y, profRank sl tb r asgn = some y ∧
        out = (acc.1 ++ [(r, y.1)], acc.2 ++ [(r, y.2)]) := by
  cases hy : profRank sl tb r asgn with
  | none =>
      constructor
      · intro h
        have hb : profileStep sl tb asgn acc r = none := by
          simp only [profileStep, hy]
          rfl
        rw [hb] at h
        exact Option.noConfusion h
      · rintro ⟨y, hy2, -⟩
        exact Option.noConfusion hy2
  | some y =>
      have hb : profileStep sl tb asgn acc r =
          some (acc.1 ++ [(r, y.1)], acc.2 ++ [(r, y.2)]) := by
        simp only [profileStep, hy]
        rfl
      rw [hb]
      constructor
      · intro h
        injection h with h
        exact ⟨y, rfl, h.symm⟩
      · rintro ⟨y2, hy2, hout⟩
        injection hy2 with hy2
        subst hy2
        rw [hout]

theorem foldlM_profile_nil (sl : List (String × ℕ)) (tb : ℕ)
    (asgn : List (String × SeqAssign))
    (acc out : List (ℕ × List (String × ℚ)) × List (ℕ × List (String × TaxaInfo))) :
    ([] : List ℕ).foldlM (profileStep sl tb asgn) acc = some out ↔ out = acc := by
  rw [List.foldlM_nil]
  constructor
  · intro h
    injection h with h
    exact h.symm
  · intro h
    subst h
    rfl

theorem foldlM_profile_cons (sl : List (String × ℕ)) (tb : ℕ)
    (asgn : List (String × SeqAssign)) (x : ℕ) (xs : List ℕ)
    (acc out : List (ℕ × List (String × ℚ)) × List (ℕ × List (String × TaxaInfo))) :
    (x :: xs).foldlM (profileStep sl tb asgn) acc = some out ↔
      ∃ y, profRank sl tb x asgn = some y ∧
        xs.foldlM (profileStep sl tb asgn)
          (acc.1 ++ [(x, y.1)], acc.2 ++ [(x, y.2)]) = some out := by
  rw [List.foldlM_cons]
  cases hstep : profileStep sl tb asgn acc x with
  | none =>
      have hb : ((none : Option (List (ℕ × List (String × ℚ)) ×
          List (ℕ × List (String × TaxaInfo)))) >>=
          fun a => xs.foldlM (profileStep sl tb asgn) a) = none := rfl
      rw [hb]
      constructor
      · intro h
        exact Option.noConfusion h
      · rintro ⟨y, hy, -⟩
        have := (profileStep_some sl tb asgn acc
            (acc.1 ++ [(x, y.1)], acc.2 ++ [(x, y.2)]) x).mpr ⟨y, hy, rfl⟩
        rw [hstep] at this
        exact Option.noConfusion this
  | some acc2 =>
      obtain ⟨y, hy, hacc2⟩ := (profileStep_some sl tb asgn acc acc2 x).mp hstep
      subst hacc2
      have hb : ((some ((acc.1 ++ [(x, y.1)], acc.2 ++ [(x, y.2)])) :
          Option (List (ℕ × List (String × ℚ)) ×
            List (ℕ × List (String × TaxaInfo)))) >>=
          fun a => xs.foldlM (profileStep sl tb asgn) a) =
          xs.foldlM (profileStep sl tb asgn)
            (acc.1 ++ [(x, y.1)], acc.2 ++ [(x, y.2)]) := rfl
      rw [hb]
      constructor
      · intro h
        exact ⟨y, hy, h⟩
      · rintro ⟨y2, hy2, h⟩
        rw [hy] at hy2
        injection hy2 with hy2
        subst hy2
        exact h

theorem profile_fold_lookup (sl : List (String × ℕ)) (tb : ℕ)
    (asgn : List (String × SeqAssign)) :
    ∀ (ranks : List ℕ)
      (acc out : List (ℕ × List (String × ℚ)) × List (ℕ × List (String × TaxaInfo))),
      ranks.foldlM (profileStep sl tb asgn) acc = some out →
      ∀ r, r ∉ ranks →
        alookup r out.1 = alookup r acc.1 ∧ alookup r out.2 = alookup r acc.2 := by
  intro ranks
  induction ranks with
  | nil =>
      intro acc out h r _
      rw [foldlM_profile_nil] at h
      subst h
      exact ⟨rfl, rfl⟩
  | cons x xs ih =>
      intro acc out h r hr
      have hrx : x ≠ r := fun he => hr (he ▸ List.mem_cons_self _ _)
      have hrs : r ∉ xs := fun hm => hr (List.mem_cons_of_mem _ hm)
      obtain ⟨y, -, h⟩ := (foldlM_profile_cons sl tb asgn x xs acc out).mp h
      obtain ⟨h1, h2⟩ := ih _ _ h r hrs
      rw [h1, h2]
      exact ⟨alookup_append_singleton_ne _ _ _ _ hrx,
        alookup_append_singleton_ne _ _ _ _ hrx⟩

theorem profile_fold_mem (sl : List (String × ℕ)) (tb : ℕ)
    (asgn : List (String × SeqAssign)) :
    ∀ (ranks : List ℕ)
      (acc out : List (ℕ × List (String × ℚ)) × List (ℕ × List (String × TaxaInfo))),
      ranks.foldlM (profileStep sl tb asgn) acc = some out →
      ranks.Nodup →
      (∀ r ∈ ranks, alookup r acc.1 = none ∧ alookup r acc.2 = none) →
      ∀ r ∈ ranks, ∃ y, profRank sl tb r asgn = some y ∧
        alookup r out.1 = some y.1 ∧ alookup r out.2 = some y.2 := by
  intro ranks
  induction ranks with
  | nil =>
      intro acc out _ _ _ r hr
      exact absurd hr (List.not_mem_nil _)
  | cons x xs ih =>
      intro acc out h hnd hacc r hr
      obtain ⟨y, hy, h⟩ := (foldlM_profile_cons sl tb asgn x xs acc out).mp h
      have hxnot : x ∉ xs := (List.nodup_cons.mp hnd).1
      rcases List.mem_cons.mp hr with hr1 | hr1
      · subst hr1
        obtain ⟨h1, h2⟩ := profile_fold_lookup sl tb asgn xs _ out h r hxnot
        obtain ⟨ha1, ha2⟩ := hacc r (List.mem_cons_self _ _)
        refine ⟨y, hy, ?_, ?_⟩
        · rw [h1, alookup_append_right _ _ _ ha1]
          simp [alookup]
        · rw [h2, alookup_append_right _ _ _ ha2]
          simp [alookup]
      · refine ih _ _ h (List.nodup_cons.mp hnd).2 ?_ r hr1
        intro r2 hr2
        have hr2x : x ≠ r2 := fun he => hxnot (he ▸ hr2)
        obtain ⟨hb1, hb2⟩ := hacc r2 (List.mem_cons_of_mem _ hr2)
        exact ⟨by rw [alookup_append_singleton_ne _ _ _ _ hr2x]; exact hb1,
          by rw [alookup_append_singleton_ne _ _ _ _ hr2x]; exact hb2⟩

theorem except_toOption_ok {ε α : Type} (x : Except ε α) (a : α) :
    x.toOption = some a ↔ x = .ok a := by
  cases x with
  | error e =>
      constructor
      · intro h
        exact Option.noConfusion h
      · intro h
        exact Except.noConfusion h
  | ok b =>
      constructor
      · intro h
        injection h with h
        rw [h]
      · intro h
        injection h with h
        rw [h]
        rfl

theorem profile_rank_spec (p : Profile)
    (ab : List (ℕ × List (String × ℚ))) (st2 : List (ℕ × List (String × TaxaInfo)))
    (hp : p.profile = some (ab, st2)) :
    ∃ asgn, p.classify_seqs = .ok asgn ∧
      ∀ r, r < p.numRanks →
        ∃ y, profRank p.seq_len ((p.seq_len.map Prod.snd).sum) r asgn = some y ∧
          alookup r ab = some y.1 ∧ alookup r st2 = some y.2 := by
  cases hc : p.classify_seqs with
  | error e =>
      have hb : p.profile = none := by
        simp only [Profile.profile, hc]
        rfl
      rw [hb] at hp
      exact Option.noConfusion hp
  | ok asgn =>
      have hb : p.profile = (List.range p.numRanks).foldlM
          (profileStep p.seq_len ((p.seq_len.map Prod.snd).sum) asgn) ([], []) := by
        simp only [Profile.profile, hc]
        rfl
      rw [hb] at hp
      refine ⟨asgn, rfl, ?_⟩
      intro r hr
      have := profile_fold_mem p.seq_len ((p.seq_len.map Prod.snd).sum) asgn
        (List.range p.numRanks) ([], []) (ab, st2) hp (List.nodup_range _)
        (fun _ _ => ⟨rfl, rfl⟩) r (List.mem_range.mpr hr)
      exact this

theorem profRank_some (sl : List (String × ℕ)) (tb : ℕ) (r : ℕ)
    (asgn : List (String × SeqAssign))
    (y : List (String × ℚ) × List (String × TaxaInfo)) :
    profRank sl tb r asgn = some y ↔
      ∃ st0, asgn.foldlM (profRankStep sl tb r) ([], [], [], []) = some st0 ∧
        y = (st0.1, rankStats st0) := by
  cases hf : asgn.foldlM (profRankStep sl tb r) ([], [], [], []) with
  | none =>
      have hb : profRank sl tb r asgn = none := by
        simp only [profRank, hf]
        rfl
      rw [hb]
      constructor
      · intro h
        exact Option.noConfusion h
      · rintro ⟨st0, hst0, -⟩
        exact Option.noConfusion hst0
  | some st0 =>
      have hb : profRank sl tb r asgn = some (st0.1, rankStats st0) := by
        simp only [profRank, hf]
        rfl
      rw [hb]
      constructor
      · intro h
        injection h with h
        exact ⟨st0, rfl, h.symm⟩
      · rintro ⟨st1, hst1, hy⟩
        injection hst1 with hst1
        subst hst1
        rw [hy]

/-- C8 counterexample: on `Pc8` every sequence is classified at rank 0, and
the returned relative-abundance row of rank 0 does not contain the
`unclassified` label at all, while the statistics row does (with absent
quality fields and zero counts).  This refutes the claim that the sentinel
is present in both mappings even at zero counts. -/
theorem c8_unclassified_absent_from_abundance :
    Pc8.profile = some ([(0, [("A", 1)])],
      [(0, [("A", TaxaInfo.mk (some 1) (some 1) (some 1) 1 10),
            (unclassified, TaxaInfo.mk none none none 0 0)])]) ∧
    alookup unclassified [(("A" : String), (1 : ℚ))] = none := by
  constructor
  · with_unfolding_all rfl
  · with_unfolding_all rfl

/-- C8 amended: in every profile produced by `Profile.profile`, the
`unclassified` label is present at every rank of the per-rank statistics
mapping, and its three quality-statistic fields are `None` rather than
numeric; in the relative-abundance mapping the label appears only when at
least one sequence is unclassified at that rank (refuted at zero counts by
the counterexample). -/
theorem c8_unclassified_in_stats (p : Profile)
    (ab : List (ℕ × List (String × ℚ))) (st2 : List (ℕ × List (String × TaxaInfo)))
    (hp : p.profile = some (ab, st2)) (r : ℕ) (hr : r < p.numRanks) :
    ∃ m, alookup r st2 = some m ∧
      ∃ ti, alookup unclassified m = some ti ∧
        ti.evalue = none ∧ ti.perc_identity = none ∧ ti.aln_length = none := by
  obtain ⟨asgn, -, hrank⟩ := profile_rank_spec p ab st2 hp
  obtain ⟨y, hy, -, hst⟩ := hrank r hr
  obtain ⟨st0, -, hy2⟩ := (profRank_some _ _ _ _ _).mp hy
  subst hy2
  refine ⟨rankStats st0, hst, ?_⟩
  rw [rankStats, alookup_aset, if_pos rfl]
  exact ⟨_, rfl, rfl, rfl, rfl⟩

/-- C8 witness: the amended statement evaluated on `Pc8` at rank 0. -/
theorem c8_unclassified_in_stats_witness :
    ∃ m, alookup 0 [((0 : ℕ),
        [(("A" : String), TaxaInfo.mk (some 1) (some 1) (some 1) 1 10),
         (unclassified, TaxaInfo.mk none none none 0 0)])] = some m ∧
      ∃ ti, alookup unclassified m = some ti ∧
        ti.evalue = none ∧ ti.perc_identity = none ∧ ti.aln_length = none :=
  c8_unclassified_in_stats Pc8 [(0, [("A", 1)])]
    [(0, [("A", TaxaInfo.mk (some 1) (some 1) (some 1) 1 10),
          (unclassified, TaxaInfo.mk none none none 0 0)])]
    (by with_unfolding_all rfl) 0 (by decide)

/-- C7 counterexample: fragmenting a sequence that yields zero fragments
(`Pc7`) records it in no table, and `classify_seqs` returns an empty
result: the sequence does not appear in the Classification Result at all,
refuting the claim that it appears with `unclassified` at every rank. -/
theorem c7_zero_fragments_absent :
    Pc7.classify_seqs = .ok [] ∧ Pc7.seq_len = [] ∧
    alookup "s" ([] : List (String × SeqAssign)) = none := by
  refine ⟨?_, rfl, rfl⟩
  with_unfolding_all rfl

/-- C7 amended: a sequence whose fragmentation yields zero fragments is
never entered into the per-sequence tables by `_fragment_genomes` (the
table writes sit inside the per-fragment loop), hence it is absent from
every successful Classification Result; the threshold test is never
evaluated for it, so no runtime fault arises from a zero fragment count. -/
theorem c7_zero_fragments_never_recorded (p : Profile) (sid : String) (slen : ℕ)
    (h1 : alookup sid p.seq_len = none)
    (h2 : sid ∉ p.hits.map Prod.fst) :
    fragment_genomes p [(sid, slen, 0)] = p ∧
    (∀ asgn, p.classify_seqs = .ok asgn → alookup sid asgn = none) := by
  constructor
  · rfl
  · intro asgn hok
    obtain ⟨first, hfirst, ha⟩ := (classify_seqs_ok_iff p asgn).mp hok
    subst ha
    rw [alookup_eq_none_iff]
    intro hmem
    rcases noHitFill_keys_sub _ _ _ _ hmem with hm | hm
    · have hkeys := classifyAll_fold_keys _ _ _ _ _ _ hfirst
      rw [hkeys] at hm
      simp only [List.map_nil, List.nil_append] at hm
      exact h2 hm
    · exact (alookup_eq_none_iff _ _).mp h1 hm

/-- C7 witness: the amended statement applied to the empty profile. -/
theorem c7_zero_fragments_never_recorded_witness :
    fragment_genomes
        { numRanks := 2, taxonomy := [], seq_len := [], fragments_from_seq := []
        , hits := [] } [("s", 0, 0)] =
      { numRanks := 2, taxonomy := [], seq_len := [], fragments_from_seq := []
      , hits := [] } ∧
    alookup "s" ([] : List (String × SeqAssign)) = none :=
  ⟨(c7_zero_fragments_never_recorded
      { numRanks := 2, taxonomy := [], seq_len := [], fragments_from_seq := []
      , hits := [] } "s" 0 rfl (by decide)).1,
   (c7_zero_fragments_never_recorded
      { numRanks := 2, taxonomy := [], seq_len := [], fragments_from_seq := []
      , hits := [] } "s" 0 rfl (by decide)).2 [] (by with_unfolding_all rfl)⟩

theorem aadd_cons_ne (k k₁ : String) (v w : ℚ) (tl : List (String × ℚ))
    (h : ¬k₁ = k) : aadd k v ((k₁, w) :: tl) = (k₁, w) :: aadd k v tl := by
  simp only [aadd, alookup, if_neg h, aset]

theorem sum_aadd (k : String) (v : ℚ) (l : List (String × ℚ)) :
    ((aadd k v l).map Prod.snd).sum = (l.map Prod.snd).sum + v := by
  induction l with
  | nil => simp [aadd, aset, alookup]
  | cons hd tl ih =>
      obtain ⟨k₁, w⟩ := hd
      by_cases h : k₁ = k
      · subst h
        have h1 : aadd k₁ v ((k₁, w) :: tl) = (k₁, w + v) :: tl := by
          simp [aadd, alookup, aset]
        rw [h1]
        simp only [List.map_cons, List.sum_cons]
        ring
      · rw [aadd_cons_ne _ _ _ _ _ h]
        simp only [List.map_cons, List.sum_cons, ih]
        ring

theorem alookup_aadd (k t : String) (v : ℚ) (l : List (String × ℚ)) :
    alookup t (aadd k v l) =
      if k = t then some ((alookup k l).getD 0 + v) else alookup t l := by
  rw [aadd, alookup_aset]

theorem alookup_aaddN (k t : String) (v : ℕ) (l : List (String × ℕ)) :
    alookup t (aaddN k v l) =
      if k = t then some ((alookup k l).getD 0 + v) else alookup t l := by
  rw [aaddN, alookup_aset]

theorem sum_div_list {α : Type} (l : List α) (f : α → ℚ) (c : ℚ) :
    (l.map (fun x => f x / c)).sum = (l.map f).sum / c := by
  induction l with
  | nil => simp
  | cons hd tl ih =>
      simp only [List.map_cons, List.sum_cons, ih]
      rw [add_div]

theorem sum_lookup_keys (sl : List (String × ℕ)) (h : (sl.map Prod.fst).Nodup) :
    ((sl.map Prod.fst).map (fun s => (((alookup s sl).getD 0 : ℕ) : ℚ))).sum =
      ((sl.map Prod.snd).map (fun n : ℕ => (n : ℚ))).sum := by
  induction sl with
  | nil => simp
  | cons hd tl ih =>
      obtain ⟨k, v⟩ := hd
      simp only [List.map_cons, List.sum_cons] at h ⊢
      rw [List.nodup_cons] at h
      have hhd : alookup k ((k, v) :: tl) = some v := by
        simp [alookup]
      rw [hhd]
      have hcongr : (tl.map Prod.fst).map
          (fun s => (((alookup s ((k, v) :: tl)).getD 0 : ℕ) : ℚ)) =
          (tl.map Prod.fst).map (fun s => (((alookup s tl).getD 0 : ℕ) : ℚ)) := by
        refine List.map_congr_left ?_
        intro s hs
        have hks : ¬k = s := fun he => h.1 (he ▸ hs)
        simp [alookup, hks]
      rw [hcongr, ih h.2]
      simp

theorem profRankStep_some (sl : List (String × ℕ)) (tb : ℕ) (r : ℕ)
    (st st' : RankState) (e : String × SeqAssign) :
    profRankStep sl tb r st e = some st' ↔
      ∃ taxa hi slen, alookup r e.2 = some (taxa, hi) ∧
        alookup e.1 sl = some slen ∧ tb ≠ 0 ∧
        ((taxa = unclassified ∧
            st' = (aadd taxa ((slen : ℚ) / (tb : ℚ)) st.1, aaddN taxa 1 st.2.1,
              aaddN taxa slen st.2.2.1, st.2.2.2)) ∨
         (taxa ≠ unclassified ∧ ∃ l, hi = some l ∧
            st' = (aadd taxa ((slen : ℚ) / (tb : ℚ)) st.1, aaddN taxa 1 st.2.1,
              aaddN taxa slen st.2.2.1, aconcat taxa l st.2.2.2))) := by
  cases ha : alookup r e.2 with
  | none =>
      have hb : profRankStep sl tb r st e = none := by
        simp only [profRankStep, ha]
        rfl
      rw [hb]
      constructor
      · intro h
        exact Option.noConfusion h
      · rintro ⟨taxa, hi, slen, ha2, -⟩
        exact Option.noConfusion ha2
  | some a =>
      obtain ⟨taxa, hi⟩ := a
      cases hsl : alookup e.1 sl with
      | none =>
          have hb : profRankStep sl tb r st e = none := by
            simp only [profRankStep, ha, hsl]
            rfl
          rw [hb]
          constructor
          · intro h
            exact Option.noConfusion h
          · rintro ⟨taxa2, hi2, slen, ha2, hsl2, -⟩
            exact Option.noConfusion hsl2
      | some slen =>
          cases hi with
          | none =>
              have hb0 : profRankStep sl tb r st e =
                  (if tb = 0 then none else
                    if taxa = unclassified then
                      some (aadd taxa ((slen : ℚ) / (tb : ℚ)) st.1,
                        aaddN taxa 1 st.2.1, aaddN taxa slen st.2.2.1, st.2.2.2)
                    else none) := by
                simp only [profRankStep, ha, hsl]
                rfl
              by_cases htb : tb = 0
              · rw [hb0, if_pos htb]
                constructor
                · intro h
                  exact Option.noConfusion h
                · rintro ⟨taxa2, hi2, slen2, ha2, hsl2, htb2, -⟩
                  exact absurd htb htb2
              · rw [hb0, if_neg htb]
                by_cases hu : taxa = unclassified
                · rw [if_pos hu]
                  constructor
                  · intro h
                    injection h with h
                    exact ⟨taxa, none, slen, rfl, rfl, htb, Or.inl ⟨hu, h.symm⟩⟩
                  · rintro ⟨taxa2, hi2, slen2, ha2, hsl2, -,
                      (⟨hu2, h4⟩ | ⟨hne2, l, hl, h4⟩)⟩
                    · simp only [Option.some.injEq, Prod.mk.injEq] at ha2 hsl2
                      obtain ⟨he1, -⟩ := ha2
                      subst he1
                      subst hsl2
                      subst h4
                      rfl
                    · simp only [Option.some.injEq, Prod.mk.injEq] at ha2
                      obtain ⟨he1, he2⟩ := ha2
                      subst he1
                      rw [← he2] at hl
                      exact Option.noConfusion hl
                · rw [if_neg hu]
                  constructor
                  · intro h
                    exact Option.noConfusion h
                  · rintro ⟨taxa2, hi2, slen2, ha2, hsl2, -,
                      (⟨hu2, h4⟩ | ⟨hne2, l, hl, h4⟩)⟩
                    · simp only [Option.some.injEq, Prod.mk.injEq] at ha2
                      obtain ⟨he1, -⟩ := ha2
                      subst he1
                      exact absurd hu2 hu
                    · simp only [Option.some.injEq, Prod.mk.injEq] at ha2
                      obtain ⟨he1, he2⟩ := ha2
                      subst he1
                      rw [← he2] at hl
                      exact Option.noConfusion hl
          | some l0 =>
              have hb0 : profRankStep sl tb r st e =
                  (if tb = 0 then none else
                    if taxa = unclassified then
                      some (aadd taxa ((slen : ℚ) / (tb : ℚ)) st.1,
                        aaddN taxa 1 st.2.1, aaddN taxa slen st.2.2.1, st.2.2.2)
                    else
                      some (aadd taxa ((slen : ℚ) / (tb : ℚ)) st.1,
                        aaddN taxa 1 st.2.1, aaddN taxa slen st.2.2.1,
                        aconcat taxa l0 st.2.2.2)) := by
                simp only [profRankStep, ha, hsl]
                rfl
              by_cases htb : tb = 0
              · rw [hb0, if_pos htb]
                constructor
                · intro h
                  exact Option.noConfusion h
                · rintro ⟨taxa2, hi2, slen2, ha2, hsl2, htb2, -⟩
                  exact absurd htb htb2
              · rw [hb0, if_neg htb]
                by_cases hu : taxa = unclassified
                · rw [if_pos hu]
                  constructor
                  · intro h
                    injection h with h
                    exact ⟨taxa, some l0, slen, rfl, rfl, htb, Or.inl ⟨hu, h.symm⟩⟩
                  · rintro ⟨taxa2, hi2, slen2, ha2, hsl2, -,
                      (⟨hu2, h4⟩ | ⟨hne2, l, hl, h4⟩)⟩
                    · simp only [Option.some.injEq, Prod.mk.injEq] at ha2 hsl2
                      obtain ⟨he1, -⟩ := ha2
                      subst he1
                      subst hsl2
                      subst h4
                      rfl
                    · simp only [Option.some.injEq, Prod.mk.injEq] at ha2
                      obtain ⟨he1, -⟩ := ha2
                      subst he1
                      exact absurd hu hne2
                · rw [if_neg hu]
                  constructor
                  · intro h
                    injection h with h
                    exact ⟨taxa, some l0, slen, rfl, rfl, htb,
                      Or.inr ⟨hu, l0, rfl, h.symm⟩⟩
                  · rintro ⟨taxa2, hi2, slen2, ha2, hsl2, -,
                      (⟨hu2, h4⟩ | ⟨hne2, l, hl, h4⟩)⟩
                    · simp only [Option.some.injEq, Prod.mk.injEq] at ha2
                      obtain ⟨he1, -⟩ := ha2
                      subst he1
                      exact absurd hu2 hu
                    · simp only [Option.some.injEq, Prod.mk.injEq] at ha2 hsl2
                      obtain ⟨he1, he2⟩ := ha2
                      subst he1
                      subst hsl2
                      rw [← he2] at hl
                      injection hl with hl
                      subst hl
                      subst h4
                      rfl

theorem foldlM_rank_nil (sl : List (String × ℕ)) (tb : ℕ) (r : ℕ)
    (st out : RankState) :
    ([] : List (String × SeqAssign)).foldlM (profRankStep sl tb r) st = some out ↔
      out = st := by
  rw [List.foldlM_nil]
  constructor
  · intro h
    injection h with h
    exact h.symm
  · intro h
    subst h
    rfl

theorem foldlM_rank_cons (sl : List (String × ℕ)) (tb : ℕ) (r : ℕ)
    (e : String × SeqAssign) (es : List (String × SeqAssign)) (st out : RankState) :
    (e :: es).foldlM (profRankStep sl tb r) st = some out ↔
      ∃ st1, profRankStep sl tb r st e = some st1 ∧
        es.foldlM (profRankStep sl tb r) st1 = some out := by
  rw [List.foldlM_cons]
  cases hstep : profRankStep sl tb r st e with
  | none =>
      have hb : ((none : Option RankState) >>=
          fun a => es.foldlM (profRankStep sl tb r) a) = none := rfl
      rw [hb]
      constructor
      · intro h
        exact Option.noConfusion h
      · rintro ⟨st1, hst1, -⟩
        exact Option.noConfusion hst1
  | some st1 =>
      have hb : ((some st1 : Option RankState) >>=
          fun a => es.foldlM (profRankStep sl tb r) a) =
          es.foldlM (profRankStep sl tb r) st1 := rfl
      rw [hb]
      constructor
      · intro h
        exact ⟨st1, rfl, h⟩
      · rintro ⟨st2, hst2, h⟩
        injection hst2 with hst2
        subst hst2
        exact h

theorem rankFold_sum (sl : List (String × ℕ)) (tb : ℕ) (r : ℕ) :
    ∀ (asgn : List (String × SeqAssign)) (st out : RankState),
      asgn.foldlM (profRankStep sl tb r) st = some out →
      (out.1.map Prod.snd).sum = (st.1.map Prod.snd).sum +
        (asgn.map (fun e => (((alookup e.1 sl).getD 0 : ℕ) : ℚ) / (tb : ℚ))).sum := by
  intro asgn
  induction asgn with
  | nil =>
      intro st out h
      rw [foldlM_rank_nil] at h
      subst h
      simp
  | cons e es ih =>
      intro st out h
      obtain ⟨st1, hstep, h⟩ := (foldlM_rank_cons sl tb r e es st out).mp h
      obtain ⟨taxa, hi, slen, ha, hsl, htb, hcase⟩ :=
        (profRankStep_some sl tb r st st1 e).mp hstep
      have h1 : st1.1 = aadd taxa ((slen : ℚ) / (tb : ℚ)) st.1 := by
        rcases hcase with ⟨-, h4⟩ | ⟨-, l, -, h4⟩ <;> rw [h4]
      rw [ih st1 out h, h1, sum_aadd]
      simp only [List.map_cons, List.sum_cons]
      rw [hsl]
      simp only [Option.getD_some]
      ring

theorem rankFold_lookup_isSome (sl : List (String × ℕ)) (tb : ℕ) (r : ℕ) :
    ∀ (asgn : List (String × SeqAssign)) (st out : RankState),
      asgn.foldlM (profRankStep sl tb r) st = some out →
      ∀ e ∈ asgn, (alookup e.1 sl).isSome := by
  intro asgn
  induction asgn with
  | nil =>
      intro st out _ e he
      exact absurd he (List.not_mem_nil _)
  | cons e2 es ih =>
      intro st out h e he
      obtain ⟨st1, hstep, h⟩ := (foldlM_rank_cons sl tb r e2 es st out).mp h
      rcases List.mem_cons.mp he with he1 | he1
      · subst he1
        obtain ⟨taxa, hi, slen, -, hsl, -⟩ :=
          (profRankStep_some sl tb r st st1 e).mp hstep
        rw [hsl]
        rfl
      · exact ih st1 out h e he1

theorem rankFold_J (sl : List (String × ℕ)) (tb : ℕ) (r : ℕ) :
    ∀ (asgn : List (String × SeqAssign)) (st out : RankState),
      asgn.foldlM (profRankStep sl tb r) st = some out →
      (∀ t, alookup t st.1 =
        (alookup t st.2.2.1).map (fun n : ℕ => (n : ℚ) / (tb : ℚ))) →
      ∀ t, alookup t out.1 =
        (alookup t out.2.2.1).map (fun n : ℕ => (n : ℚ) / (tb : ℚ)) := by
  intro asgn
  induction asgn with
  | nil =>
      intro st out h hJ
      rw [foldlM_rank_nil] at h
      subst h
      exact hJ
  | cons e es ih =>
      intro st out h hJ
      obtain ⟨st1, hstep, h⟩ := (foldlM_rank_cons sl tb r e es st out).mp h
      obtain ⟨taxa, hi, slen, ha, hsl, htb, hcase⟩ :=
        (profRankStep_some sl tb r st st1 e).mp hstep
      have h1 : st1.1 = aadd taxa ((slen : ℚ) / (tb : ℚ)) st.1 ∧
          st1.2.2.1 = aaddN taxa slen st.2.2.1 := by
        rcases hcase with ⟨-, h4⟩ | ⟨-, l, -, h4⟩ <;> rw [h4] <;> exact ⟨rfl, rfl⟩
      refine ih st1 out h ?_
      intro t
      rw [h1.1, h1.2, alookup_aadd, alookup_aaddN]
      by_cases ht : taxa = t
      · rw [if_pos ht, if_pos ht]
        have hJ0 := hJ taxa
        cases hnb : alookup taxa st.2.2.1 with
        | none =>
            rw [hnb] at hJ0
            simp only [Option.map_none'] at hJ0
            rw [hJ0]
            simp only [Option.getD_none, Option.map_some']
            rw [Nat.cast_add, add_div, zero_add]
            norm_num
        | some n0 =>
            rw [hnb] at hJ0
            simp only [Option.map_some'] at hJ0
            rw [hJ0]
            simp only [Option.getD_some, Option.map_some']
            rw [Nat.cast_add, add_div]
      · rw [if_neg ht, if_neg ht]
        exact hJ t

theorem rankFold_K (sl : List (String × ℕ)) (tb : ℕ) (r : ℕ) :
    ∀ (asgn : List (String × SeqAssign)) (st out : RankState),
      asgn.foldlM (profRankStep sl tb r) st = some out →
      (∀ t, t ≠ unclassified → (alookup t st.1).isSome →
        (alookup t st.2.2.2).isSome) →
      ∀ t, t ≠ unclassified → (alookup t out.1).isSome →
        (alookup t out.2.2.2).isSome := by
  intro asgn
  induction asgn with
  | nil =>
      intro st out h hK
      rw [foldlM_rank_nil] at h
      subst h
      exact hK
  | cons e es ih =>
      intro st out h hK
      obtain ⟨st1, hstep, h⟩ := (foldlM_rank_cons sl tb r e es st out).mp h
      obtain ⟨taxa, hi, slen, ha, hsl, htb, hcase⟩ :=
        (profRankStep_some sl tb r st st1 e).mp hstep
      refine ih st1 out h ?_
      intro t htne hsome
      rcases hcase with ⟨hu, h4⟩ | ⟨hnu, l, hl, h4⟩
      · subst h4
        simp only at hsome ⊢
        rw [alookup_aadd] at hsome
        rw [if_neg (by rw [hu]; exact fun he => htne he.symm)] at hsome
        exact hK t htne hsome
      · subst h4
        simp only at hsome ⊢
        by_cases ht : taxa = t
        · subst ht
          rw [aconcat, alookup_aset, if_pos rfl]
          rfl
        · rw [alookup_aadd, if_neg ht] at hsome
          rw [aconcat, alookup_aset, if_neg ht]
          exact hK t htne hsome

theorem alookup_map_keyed {β γ : Type} (g : String → β → γ) (t : String) :
    ∀ (l : List (String × β)),
      alookup t (l.map (fun q => (q.1, g q.1 q.2))) = (alookup t l).map (g t) := by
  intro l
  induction l with
  | nil => rfl
  | cons hd tl ih =>
      obtain ⟨k, v⟩ := hd
      by_cases h : k = t
      · subst h
        simp [alookup]
      · simp [alookup, h, ih]

theorem profRank_entry (sl : List (String × ℕ)) (tb : ℕ) (r : ℕ)
    (asgn : List (String × SeqAssign))
    (y : List (String × ℚ) × List (String × TaxaInfo))
    (hy : profRank sl tb r asgn = some y) :
    ∀ t v, alookup t y.1 = some v →
      ∃ ti, alookup t y.2 = some ti ∧
        v = (ti.num_basepairs : ℚ) / (tb : ℚ) := by
  obtain ⟨st0, hf, hy2⟩ := (profRank_some sl tb r asgn y).mp hy
  subst hy2
  intro t v hv
  simp only at hv ⊢
  have hJ := rankFold_J sl tb r asgn ([], [], [], []) st0 hf (fun _ => rfl) t
  rw [hv] at hJ
  cases hnb : alookup t st0.2.2.1 with
  | none =>
      rw [hnb] at hJ
      exact Option.noConfusion hJ
  | some n =>
      rw [hnb] at hJ
      simp only [Option.map_some'] at hJ
      injection hJ with hJ
      by_cases ht : t = unclassified
      · subst ht
        refine ⟨TaxaInfo.mk none none none
            ((alookup unclassified st0.2.1).getD 0)
            ((alookup unclassified st0.2.2.1).getD 0), ?_, ?_⟩
        · rw [rankStats, alookup_aset, if_pos rfl]
        · simp only
          rw [hnb, hJ]
          rfl
      · have hbase : ∀ t2, t2 ≠ unclassified →
            (alookup t2 (([], [], [], []) : RankState).1).isSome →
            (alookup t2 (([], [], [], []) : RankState).2.2.2).isSome := by
          intro t2 _ hs2
          exact absurd hs2 (by simp [alookup])
        have hsome : (alookup t st0.2.2.2).isSome := by
          refine rankFold_K sl tb r asgn _ st0 hf hbase t ht ?_
          rw [hv]
          rfl
        cases hhs : alookup t st0.2.2.2 with
        | none =>
            rw [hhs] at hsome
            exact Bool.noConfusion hsome
        | some hl =>
            refine ⟨TaxaInfo.mk (some (qmean (hl.map HitInfo.evalue)))
                (some (qmean (hl.map HitInfo.perc_identity)))
                (some (qmean (hl.map HitInfo.aln_length)))
                ((alookup t st0.2.1).getD 0) ((alookup t st0.2.2.1).getD 0), ?_, ?_⟩
            · rw [rankStats, alookup_aset, if_neg (fun he => ht he.symm)]
              rw [alookup_map_keyed
                (fun k l2 => TaxaInfo.mk (some (qmean (l2.map HitInfo.evalue)))
                  (some (qmean (l2.map HitInfo.perc_identity)))
                  (some (qmean (l2.map HitInfo.aln_length)))
                  ((alookup k st0.2.1).getD 0) ((alookup k st0.2.2.1).getD 0)) t
                st0.2.2.2, hhs]
              rfl
            · simp only
              rw [hnb, hJ]
              rfl

theorem asgn_keys_perm (p : Profile) (asgn : List (String × SeqAssign))
    (hok : p.classify_seqs = .ok asgn)
    (hnh : (p.hits.map Prod.fst).Nodup)
    (hns : (p.seq_len.map Prod.fst).Nodup)
    (hmem : ∀ e ∈ asgn, (alookup e.1 p.seq_len).isSome) :
    List.Perm (asgn.map Prod.fst) (p.seq_len.map Prod.fst) := by
  obtain ⟨first, hfirst, ha⟩ := (classify_seqs_ok_iff p asgn).mp hok
  subst ha
  have hkeys := classifyAll_fold_keys _ _ _ _ _ _ hfirst
  refine (List.perm_ext_iff_of_nodup ?_ hns).mpr ?_
  · refine noHitFill_nodup _ _ _ ?_
    rw [hkeys]
    simpa using hnh
  · intro s
    constructor
    · intro hs
      obtain ⟨e, he, hfst⟩ := List.mem_map.mp hs
      have := hmem e he
      rw [← hfst]
      exact (alookup_isSome_iff _ _).mp this
    · intro hs
      exact (alookup_isSome_iff _ _).mp
        (noHitFill_keys_mem p.numRanks p.seq_len first s hs)

/-- C5: abundance normalization of `Profile.profile`.  For a genome whose
tables are well formed (no duplicate dictionary keys) and whose total length
is positive, every rank row of the relative-abundance table sums to exactly
1, and every entry of the row equals the base-pair count recorded for that
taxon in the statistics row divided by the genome length — i.e. the sum of
the per-sequence contributions `seq_len / total_bps` of the sequences
classified to that taxon at that rank. -/
theorem c5_abundance_sums_to_one (p : Profile)
    (ab : List (ℕ × List (String × ℚ))) (st2 : List (ℕ × List (String × TaxaInfo)))
    (hp : p.profile = some (ab, st2))
    (hnh : (p.hits.map Prod.fst).Nodup)
    (hns : (p.seq_len.map Prod.fst).Nodup)
    (hpos : 0 < (p.seq_len.map Prod.snd).sum)
    (r : ℕ) (hr : r < p.numRanks) :
    ∃ pr, alookup r ab = some pr ∧
      (pr.map Prod.snd).sum = 1 ∧
      ∀ t v, alookup t pr = some v →
        ∃ m ti, alookup r st2 = some m ∧ alookup t m = some ti ∧
          v = (ti.num_basepairs : ℚ) / (((p.seq_len.map Prod.snd).sum : ℕ) : ℚ) := by
  obtain ⟨asgn, hok, hrank⟩ := profile_rank_spec p ab st2 hp
  obtain ⟨y, hy, hab, hst⟩ := hrank r hr
  refine ⟨y.1, hab, ?_, ?_⟩
  · obtain ⟨st0, hf, hy2⟩ := (profRank_some _ _ _ _ _).mp hy
    have hy1 : y.1 = st0.1 := by rw [hy2]
    have hsum := rankFold_sum p.seq_len ((p.seq_len.map Prod.snd).sum) r asgn
      ([], [], [], []) st0 hf
    rw [hy1, hsum]
    simp only [List.map_nil, List.sum_nil, zero_add]
    rw [sum_div_list asgn (fun e => (((alookup e.1 p.seq_len).getD 0 : ℕ) : ℚ))
      (((p.seq_len.map Prod.snd).sum : ℕ) : ℚ)]
    have hmap : asgn.map (fun e => (((alookup e.1 p.seq_len).getD 0 : ℕ) : ℚ)) =
        (asgn.map Prod.fst).map
          (fun s => (((alookup s p.seq_len).getD 0 : ℕ) : ℚ)) := by
      rw [List.map_map]
      rfl
    have hperm := asgn_keys_perm p asgn hok hnh hns
      (rankFold_lookup_isSome p.seq_len _ r asgn _ st0 hf)
    have hpermmap := hperm.map
      (fun s => (((alookup s p.seq_len).getD 0 : ℕ) : ℚ))
    rw [hmap, hpermmap.sum_eq, sum_lookup_keys p.seq_len hns]
    have hcast : ((p.seq_len.map Prod.snd).map (fun n : ℕ => (n : ℚ))).sum =
        (((p.seq_len.map Prod.snd).sum : ℕ) : ℚ) :=
      (Nat.cast_list_sum _).symm
    rw [hcast]
    refine div_self ?_
    exact Nat.cast_ne_zero.mpr (by omega)
  · intro t v hv
    obtain ⟨ti, hti, hvti⟩ := profRank_entry p.seq_len
      ((p.seq_len.map Prod.snd).sum) r asgn y hy t v hv
    exact ⟨y.2, ti, hst, hti, hvti⟩

/-- C5 witness: `Pw5` has sequences of 100 bp and 300 bp; at rank 0 the
abundance row is `A ↦ 1/4`, `unclassified ↦ 3/4`, summing to 1, and each
entry is the recorded base-pair count over the 400 bp genome length. -/
theorem c5_abundance_sums_to_one_witness :
    ∃ pr, alookup 0
        [((0 : ℕ), [(("A" : String), (1/4 : ℚ)), (unclassified, (3/4 : ℚ))]),
         (1, [("B", (1/4 : ℚ)), (unclassified, (3/4 : ℚ))])] = some pr ∧
      (pr.map Prod.snd).sum = 1 ∧
      ∀ t v, alookup t pr = some v →
        ∃ m ti, alookup 0
            [((0 : ℕ),
              [(("A" : String), TaxaInfo.mk (some 2) (some 2) (some 2) 1 100),
               (unclassified, TaxaInfo.mk none none none 1 300)]),
             (1, [("B", TaxaInfo.mk (some 2) (some 2) (some 2) 1 100),
               (unclassified, TaxaInfo.mk none none none 1 300)])] = some m ∧
          alookup t m = some ti ∧
          v = (ti.num_basepairs : ℚ) /
            (((Pw5.seq_len.map Prod.snd).sum : ℕ) : ℚ) :=
  c5_abundance_sums_to_one Pw5
    [(0, [("A", (1/4 : ℚ)), (unclassified, (3/4 : ℚ))]),
     (1, [("B", (1/4 : ℚ)), (unclassified, (3/4 : ℚ))])]
    [(0, [("A", TaxaInfo.mk (some 2) (some 2) (some 2) 1 100),
          (unclassified, TaxaInfo.mk none none none 1 300)]),
     (1, [("B", TaxaInfo.mk (some 2) (some 2) (some 2) 1 100),
          (unclassified, TaxaInfo.mk none none none 1 300)])]
    (by with_unfolding_all rfl) (by with_unfolding_all decide)
    (by with_unfolding_all decide) (by with_unfolding_all decide)
    0 (by decide)
